import Mathlib

/-
Verification of the SPO-Rewriter graph-rewriting engine.

The development shallowly embeds the engine that the HTTP layer (api.py)
exposes: models.NodeLinkGraph.to_networkx together with logic._norm_ids,
logic._check_morphism and logic.calculate.  networkx specifics that the
code relies on are embedded explicitly:

  * models.to_networkx calls json_graph.node_link_graph(data) with the
    default multigraph=True, so all three working graphs are undirected
    multigraphs; nodes and parallel edge copies keep insertion order.
  * add_edge silently creates missing endpoint nodes.
  * remove_edge on a multigraph removes the most recently added copy
    between the two endpoints (dict popitem), in either orientation.
  * has_edge is symmetric and returns False when an endpoint is missing.
  * neighbors(n) yields the distinct neighbors of n in first-incidence
    order and raises NetworkXError when n is not in the graph.
  * node attribute dicts of request nodes always carry the keys x and y,
    whose value is None when the request omitted the coordinate
    (pydantic model_dump keeps None fields); float(None) raises
    TypeError.  Nodes auto-created by add_edge have no x or y key, and
    dict.get(key, 0.0) yields the 0.0 default only in that case.

Machine integers are unbounded in Python, so identifiers are Int.
The engine combines coordinates only with additions and subtractions;
coordinates are embedded as integers, every concrete coordinate in
this development is a small integer, and Python float arithmetic is
exact on such values.  No claim settled here depends on coordinate
values beyond this exact arithmetic.
-/

namespace SPO

/-- Node identifiers: Python int or str (models.NodeId). -/
inductive NodeId where
  | i : Int → NodeId
  | s : String → NodeId
deriving DecidableEq, Repr

/-- Value of a list of decimal digit characters; none when empty or a
character is not a digit. -/
def digitsValAux : List Char → Nat → Option Nat
  | [], acc => some acc
  | c :: cs, acc =>
    if c.isDigit then digitsValAux cs (acc * 10 + (c.toNat - 48)) else none

def digitsVal : List Char → Option Nat
  | [] => none
  | cs => digitsValAux cs 0

/-- Python int(str) on a base-10 literal: optional sign followed by
digits, the whole string.  (CPython additionally strips whitespace and
allows underscore separators; no identifier in this development nor in
the claims uses those forms.) -/
def str_to_int (str : String) : Option Int :=
  match str.toList with
  | '-' :: rest => (digitsVal rest).map (fun n => -(n : Int))
  | '+' :: rest => (digitsVal rest).map (fun n => (n : Int))
  | cs => (digitsVal cs).map (fun n => (n : Int))

/-- logic._norm_ids inner helper _to_int_helper. -/
def to_int_helper (n : NodeId) : NodeId :=
  match n with
  | .i k => .i k
  | .s str =>
    match str_to_int str with
    | some k => .i k
    | none => .s str

/-- Python dict insertion: overwriting an existing key keeps its
position, a new key is appended. -/
def dinsert (m : List (NodeId × NodeId)) (k v : NodeId) : List (NodeId × NodeId) :=
  match m with
  | [] => [(k, v)]
  | (k0, v0) :: rest => if k0 = k then (k0, v) :: rest else (k0, v0) :: dinsert rest k v

/-- Python dict.get. -/
def dget (m : List (NodeId × NodeId)) (k : NodeId) : Option NodeId :=
  match m with
  | [] => none
  | (k0, v0) :: rest => if k0 = k then some v0 else dget rest k

/-- logic._norm_ids: normalize keys and values of a mapping dict. -/
def norm_ids (mapping : List (NodeId × NodeId)) : List (NodeId × NodeId) :=
  mapping.foldl (fun acc p => dinsert acc (to_int_helper p.1) (to_int_helper p.2)) []

/-- dict of lists: d.setdefault(k, []).append(v). -/
def setdefault_append (m : List (NodeId × List NodeId)) (k v : NodeId) :
    List (NodeId × List NodeId) :=
  match m with
  | [] => [(k, [v])]
  | (k0, l0) :: rest =>
    if k0 = k then (k0, l0 ++ [v]) :: rest else (k0, l0) :: setdefault_append rest k v

/-- logic.calculate lines 100-102: reverse map LHS to list of RHS nodes. -/
def build_lhs_to_rhs (rhs_to_lhs : List (NodeId × NodeId)) : List (NodeId × List NodeId) :=
  rhs_to_lhs.foldl (fun acc p => setdefault_append acc p.2 p.1) []

/-- lhs_to_rhs.get(lhs_id, []). -/
def dgetL (m : List (NodeId × List NodeId)) (k : NodeId) : List NodeId :=
  match m with
  | [] => []
  | (k0, l0) :: rest => if k0 = k then l0 else dgetL rest k

/-- lhs_to_rhs key membership (the source tests rhs_node in lhs_to_rhs,
which is dict-key membership). -/
def dhasKeyL (m : List (NodeId × List NodeId)) (k : NodeId) : Bool :=
  m.any (fun p => decide (p.1 = k))

/-- networkx node attribute dict restricted to the keys the engine
touches.  The outer Option is key presence, the inner Option is the
Python value (None or a float). -/
structure Attrs where
  x : Option (Option Int)
  y : Option (Option Int)
deriving DecidableEq, Repr

def emptyAttrs : Attrs := ⟨none, none⟩

/-- Undirected networkx MultiGraph: node table in insertion order plus
the multiset of edge copies in insertion order. -/
structure PyGraph where
  nodes : List (NodeId × Attrs)
  edges : List (NodeId × NodeId)
deriving DecidableEq, Repr

def PyGraph.hasNode (g : PyGraph) (v : NodeId) : Bool :=
  g.nodes.any (fun p => decide (p.1 = v))

def PyGraph.getAttrs (g : PyGraph) (v : NodeId) : Option Attrs :=
  (g.nodes.find? (fun p => decide (p.1 = v))).map Prod.snd

/-- G.add_node(v, x=..., y=...): update in place or append. -/
def PyGraph.addNode (g : PyGraph) (v : NodeId) (a : Attrs) : PyGraph :=
  if g.hasNode v then
    { g with nodes := g.nodes.map (fun p => if p.1 = v then (p.1, a) else p) }
  else
    { g with nodes := g.nodes ++ [(v, a)] }

def PyGraph.addNodeIfAbsent (g : PyGraph) (v : NodeId) : PyGraph :=
  if g.hasNode v then g else { g with nodes := g.nodes ++ [(v, emptyAttrs)] }

/-- G.add_edge(u, v): silently creates missing endpoints, then appends
a fresh parallel copy. -/
def PyGraph.add_edge (g : PyGraph) (u v : NodeId) : PyGraph :=
  let g1 := g.addNodeIfAbsent u
  let g2 := g1.addNodeIfAbsent v
  { g2 with edges := g2.edges ++ [(u, v)] }

def edgeMatches (u v : NodeId) (e : NodeId × NodeId) : Bool :=
  (decide (e.1 = u) && decide (e.2 = v)) || (decide (e.1 = v) && decide (e.2 = u))

/-- G.has_edge(u, v): symmetric, False when an endpoint is missing. -/
def PyGraph.hasEdge (g : PyGraph) (u v : NodeId) : Bool :=
  g.edges.any (edgeMatches u v)

/-- G.remove_node(v): drops the node and every incident edge copy. -/
def PyGraph.remove_node (g : PyGraph) (v : NodeId) : PyGraph :=
  { nodes := g.nodes.filter (fun p => decide (p.1 ≠ v))
  , edges := g.edges.filter (fun e => decide (e.1 ≠ v) && decide (e.2 ≠ v)) }

def eraseFirstP (p : NodeId × NodeId → Bool) : List (NodeId × NodeId) → List (NodeId × NodeId)
  | [] => []
  | e :: rest => if p e then rest else e :: eraseFirstP p rest

/-- MultiGraph.remove_edge(u, v) without key: dict popitem removes the
most recently added copy between u and v (either stored orientation). -/
def PyGraph.remove_edge (g : PyGraph) (u v : NodeId) : PyGraph :=
  { g with edges := (eraseFirstP (edgeMatches u v) g.edges.reverse).reverse }

def dedupFirstAux (seen : List NodeId) : List NodeId → List NodeId
  | [] => []
  | x :: xs => if x ∈ seen then dedupFirstAux seen xs else x :: dedupFirstAux (seen ++ [x]) xs

def dedupFirst (l : List NodeId) : List NodeId := dedupFirstAux [] l

def incidentOther (u : NodeId) (e : NodeId × NodeId) : Option NodeId :=
  if e.1 = u then some e.2 else if e.2 = u then some e.1 else none

/-- G.neighbors(u): distinct neighbors in first-incidence order (the
adjacency dict key order). -/
def PyGraph.neighbors (g : PyGraph) (u : NodeId) : List NodeId :=
  dedupFirst (g.edges.filterMap (incidentOther u))

def copiesBetween (g : PyGraph) (u v : NodeId) : List (NodeId × NodeId) :=
  g.edges.filter (edgeMatches u v)

/-- G.edges() of an undirected multigraph, as node_link_data reports
them: nodes in insertion order, each edge reported once from the
endpoint seen first, oriented (node, neighbor), one tuple per parallel
copy. -/
def node_link_edges_aux (g : PyGraph) (seen : List NodeId) : List NodeId → List (NodeId × NodeId)
  | [] => []
  | n :: rest =>
    (((g.neighbors n).filter (fun m => decide (m ∉ seen))).map
        (fun m => (copiesBetween g n m).map (fun _ => (n, m)))).flatten
      ++ node_link_edges_aux g (seen ++ [n]) rest

def node_link_edges (g : PyGraph) : List (NodeId × NodeId) :=
  node_link_edges_aux g [] (g.nodes.map Prod.fst)

/-- models.Node: id plus optional coordinates (None when omitted). -/
structure Node where
  id : NodeId
  x : Option Int
  y : Option Int
deriving DecidableEq, Repr

/-- models.Link. -/
structure Link where
  source : NodeId
  target : NodeId
deriving DecidableEq, Repr

/-- Free-form graph metadata bag, passed through unchanged. -/
abbrev Meta := List (String × String)

/-- models.NodeLinkGraph. -/
structure NodeLinkGraph where
  graph : Meta
  nodes : List Node
  links : List Link
deriving DecidableEq, Repr

/-- models.NodeLinkGraph.to_networkx via json_graph.node_link_graph:
all nodes first (attribute keys x and y always present, value possibly
None), then all links (add_edge auto-creating missing endpoints).
Node ids are used raw; no normalization happens here. -/
def NodeLinkGraph.to_networkx (g : NodeLinkGraph) : PyGraph :=
  let g1 := g.nodes.foldl (fun acc n => acc.addNode n.id ⟨some n.x, some n.y⟩) ⟨[], []⟩
  g.links.foldl (fun acc l => acc.add_edge l.source l.target) g1

/-- models.CalculateRequest. -/
structure CalculateRequest where
  mapping_lhs_to_input : List (NodeId × NodeId)
  mapping_rhs_to_lhs : List (NodeId × NodeId)
  graph_input : NodeLinkGraph
  graph_lhs : NodeLinkGraph
  graph_rhs : NodeLinkGraph
deriving DecidableEq, Repr

/-- Exceptions the engine can surface: fastapi HTTPException,
networkx NetworkXError, Python TypeError from float(None).  fuelOut is
an artifact of the bounded BFS unfolding below; the bound is generous
enough that it is never reached on terminating runs. -/
inductive PyErr where
  | http : Nat → String → PyErr
  | networkx : String → PyErr
  | typeError : PyErr
  | fuelOut : PyErr
deriving DecidableEq, Repr

def no_morphism : PyErr := .http 400 "error: no morphism"

def not_fully_mapped : PyErr := .http 400 "error: lhs isn't fully mapped to input"

def NodeId.render : NodeId → String
  | .i n => toString n
  | .s str => str

/-- logic._check_morphism, second per-node loop (lines 52-60): every
LHS neighbor must have a mapped edge in Input; an unmapped neighbor
yields has_edge(None, input_id) == False and hence rejection. -/
def nbr_edges_check (G_in : PyGraph) (lhs_to_input : List (NodeId × NodeId))
    (input_id : NodeId) : List NodeId → Except PyErr Unit
  | [] => .ok ()
  | l :: rest =>
    let hit := match dget lhs_to_input l with
      | some iv => G_in.hasEdge iv input_id || G_in.hasEdge input_id iv
      | none => false
    if hit then nbr_edges_check G_in lhs_to_input input_id rest
    else .error no_morphism

/-- Condition under which one iteration of the extra-structure loop of
logic._check_morphism (lines 63-69) rejects: Input has an edge between
input_id and the match image of l while LHS has no edge between lhs_id
and l (an unmapped l yields has_edge(input_id, None) == False). -/
def extra_violation (G_in G_lhs : PyGraph) (lhs_to_input : List (NodeId × NodeId))
    (lhs_id input_id l : NodeId) : Bool :=
  (match dget lhs_to_input l with
    | some iv => G_in.hasEdge input_id iv
    | none => false) && !(G_lhs.hasEdge lhs_id l)

/-- logic._check_morphism, third per-node loop (lines 63-69): the
"extra structure" direction.  The source guard (if l == lhs_id: pass)
is a no-op, so the case l = lhs_id is checked like any other. -/
def extra_edges_check (G_in G_lhs : PyGraph) (lhs_to_input : List (NodeId × NodeId))
    (lhs_id input_id : NodeId) : List NodeId → Except PyErr Unit
  | [] => .ok ()
  | l :: rest =>
    if extra_violation G_in G_lhs lhs_to_input lhs_id input_id l then .error no_morphism
    else extra_edges_check G_in G_lhs lhs_to_input lhs_id input_id rest

/-- logic._check_morphism body for one LHS node. -/
def check_morphism_node (G_in G_lhs : PyGraph) (lhs_to_input : List (NodeId × NodeId))
    (lhs_id : NodeId) : Except PyErr Unit :=
  match dget lhs_to_input lhs_id with
  | none => .error not_fully_mapped
  | some input_id =>
    if !(G_in.hasNode input_id) then
      .error (.networkx ("The node " ++ input_id.render ++ " is not in the graph."))
    else
      let lhs_nbrs_list := G_lhs.neighbors lhs_id
      let inp_nbrs := G_in.neighbors input_id
      let mapped := lhs_nbrs_list.filterMap (dget lhs_to_input)
      if !(mapped.all (fun m => decide (m ∈ inp_nbrs))) then .error no_morphism
      else do
        nbr_edges_check G_in lhs_to_input input_id lhs_nbrs_list
        extra_edges_check G_in G_lhs lhs_to_input lhs_id input_id (G_lhs.nodes.map Prod.fst)

/-- logic._check_morphism: every LHS node in iteration order. -/
def check_morphism (G_in G_lhs : PyGraph) (lhs_to_input : List (NodeId × NodeId)) :
    Except PyErr Unit :=
  (G_lhs.nodes.map Prod.fst).foldlM
    (fun _ lhs_id => check_morphism_node G_in G_lhs lhs_to_input lhs_id) ()

/-- int(n) over a node id. -/
def int_of_node_id : NodeId → Option Int
  | .i n => some n
  | .s str => str_to_int str

def max_int_list : List Int → Int
  | [] => 0
  | x :: xs => xs.foldl max x

/-- logic.calculate lines 104-108: max(int(n) for n in G_in.nodes)
with the whole computation falling back to 0 when the graph is empty
or ANY id fails to parse (the generator raises inside max). -/
def max_input_id (g : PyGraph) : Int :=
  let ids := g.nodes.map Prod.fst
  if ids.isEmpty then 0
  else if ids.all (fun n => (int_of_node_id n).isSome) then
    max_int_list (ids.filterMap int_of_node_id)
  else 0

/-- Mutable state captured by the closures in logic.calculate.
created_ids is a ghost refinement of created_nodes_count: the list of
ids handed out by next_new_id, in allocation order. -/
structure RState where
  G_in : PyGraph
  next_new_id : Int
  rhs_new_to_input : List (Option NodeId × Int)
  created_ids : List Int
deriving DecidableEq, Repr

def memo_get (m : List (Option NodeId × Int)) (k : Option NodeId) : Option Int :=
  match m with
  | [] => none
  | (k0, v0) :: rest => if k0 = k then some v0 else memo_get rest k

/-- Python truthiness of an optional id: None, 0 and "" are falsy. -/
def py_falsy : Option NodeId → Bool
  | none => true
  | some (.i n) => decide (n = 0)
  | some (.s str) => decide (str = "")

/-- G.nodes.get(v, \x7b\x7d) where v may be None. -/
def nodes_get (g : PyGraph) (v : Option NodeId) : Attrs :=
  match v with
  | none => emptyAttrs
  | some nid => (g.getAttrs nid).getD emptyAttrs

/-- attrs.get("x", 0.0): default only when the key is absent; a key
present with value None passes None through. -/
def attr_get (a : Option (Option Int)) : Option Int :=
  match a with
  | none => some 0
  | some v => v

/-- float(v): TypeError on None. -/
def py_float (v : Option Int) : Except PyErr Int :=
  match v with
  | some q => .ok q
  | none => .error .typeError

/-- logic.create_rhs_only_node (lines 126-154), verbatim: memo lookup
keyed by the raw rhs_id argument (possibly None), coordinates from the
input anchor then the doubling update new_x += new_x + dx, and the
early falsy-argument exit that skips both the memo write and the
relative-vector shift. -/
def create_rhs_only_node (G_rhs : PyGraph) (rhs_id rhs_src input_src : Option NodeId)
    (st : RState) : Except PyErr (NodeId × RState) :=
  match memo_get st.rhs_new_to_input rhs_id with
  | some nid => .ok (.i nid, st)
  | none => do
    let in_pos := nodes_get st.G_in input_src
    let new_x ← py_float (attr_get in_pos.x)
    let new_y ← py_float (attr_get in_pos.y)
    let new_id := st.next_new_id
    let st1 : RState :=
      { st with next_new_id := st.next_new_id + 1, created_ids := st.created_ids ++ [new_id] }
    if py_falsy rhs_src && py_falsy input_src then
      .ok (.i new_id,
        { st1 with G_in := st1.G_in.addNode (.i new_id) ⟨some (some new_x), some (some new_y)⟩ })
    else do
      let rhs_pos := nodes_get G_rhs rhs_src
      let rhs_nbr_pos := nodes_get G_rhs rhs_id
      let bx ← py_float (attr_get rhs_nbr_pos.x)
      let ax ← py_float (attr_get rhs_pos.x)
      let by2 ← py_float (attr_get rhs_nbr_pos.y)
      let ay ← py_float (attr_get rhs_pos.y)
      let dx := bx - ax
      let dy := by2 - ay
      let new_x2 := new_x + (new_x + dx)
      let new_y2 := new_y + (new_y + dy)
      .ok (.i new_id,
        { st1 with
          G_in := st1.G_in.addNode (.i new_id) ⟨some (some new_x2), some (some new_y2)⟩
          rhs_new_to_input := st1.rhs_new_to_input ++ [(rhs_id, new_id)] })

/-- logic.ensure_edge: add only if absent in either orientation. -/
def ensure_edge (g : PyGraph) (u v : NodeId) : PyGraph × Bool :=
  if !(g.hasEdge u v) && !(g.hasEdge v u) then (g.add_edge u v, true) else (g, false)

/-- Body of the BFS neighbor loop (logic.calculate lines 204-228). -/
def process_neighbor (G_rhs : PyGraph) (rhs_to_lhs lhs_to_input : List (NodeId × NodeId))
    (visited : List NodeId) (rhs_cur input_cur : NodeId)
    (acc : List (NodeId × NodeId) × RState) (rhs_nbr : NodeId) :
    Except PyErr (List (NodeId × NodeId) × RState) :=
  let q := acc.1
  let st := acc.2
  match dget rhs_to_lhs rhs_nbr with
  | none => do
    let res ← create_rhs_only_node G_rhs (some rhs_nbr) (some rhs_cur) (some input_cur) st
    let input_nbr := res.1
    let st1 := res.2
    let st2 : RState := { st1 with G_in := (ensure_edge st1.G_in input_cur input_nbr).1 }
    let q2 := if rhs_nbr ∈ visited then q else q ++ [(rhs_nbr, input_nbr)]
    .ok (q2, st2)
  | some lhs_nbr =>
    match dget lhs_to_input lhs_nbr with
    | none => .ok (q, st)
    | some input_nbr =>
      let st2 : RState := { st with G_in := (ensure_edge st.G_in input_cur input_nbr).1 }
      let q2 := if rhs_nbr ∈ visited then q else q ++ [(rhs_nbr, input_nbr)]
      .ok (q2, st2)

/-- The BFS while-loop (logic.calculate lines 184-228), unfolded on a
fuel bound on the number of queue pops.  The source's rhs_deg and
in_deg at lines 193-202 are computed inside try/except, never used,
and any lookup failure is swallowed, so they are not modelled.  The
bound (nodes+1)^2 + 1 dominates the actual pop count (at most one pop
per enqueue, at most one enqueue per processed-node/neighbor pair),
so fuel exhaustion cannot occur on runs the source terminates on; the
universally quantified theorems below are stated on successful runs
and the concrete runs all evaluate within the bound. -/
def bfs_loop (G_rhs : PyGraph) (rhs_to_lhs lhs_to_input : List (NodeId × NodeId)) :
    Nat → List (NodeId × NodeId) → List NodeId → RState →
    Except PyErr (List NodeId × RState)
  | 0, _, _, _ => .error .fuelOut
  | _ + 1, [], visited, st => .ok (visited, st)
  | fuel + 1, (rhs_cur, input_cur) :: rest, visited, st =>
    if rhs_cur ∈ visited then
      bfs_loop G_rhs rhs_to_lhs lhs_to_input fuel rest visited st
    else
      let visited1 := visited ++ [rhs_cur]
      let nbrs := G_rhs.neighbors rhs_cur
      do
        let out ← nbrs.foldlM
          (process_neighbor G_rhs rhs_to_lhs lhs_to_input visited1 rhs_cur input_cur) ([], st)
        bfs_loop G_rhs rhs_to_lhs lhs_to_input fuel (rest ++ out.1) visited1 out.2

/-- logic.calculate lines 229-232: the scan appended to every BFS run,
with the source conditions verbatim: rhs_node not in visited_rhs and
rhs_node not a KEY of lhs_to_rhs (an LHS-id keyed dict), and the call
create_rhs_only_node(None, None, rhs_node). -/
def orphan_scan (G_rhs : PyGraph) (lhs_to_rhs : List (NodeId × List NodeId))
    (visited : List NodeId) (st : RState) : Except PyErr RState :=
  (G_rhs.nodes.map Prod.fst).foldlM
    (fun st1 rhs_node =>
      if !(decide (rhs_node ∈ visited)) && !(dhasKeyL lhs_to_rhs rhs_node) then do
        let res ← create_rhs_only_node G_rhs none none (some rhs_node) st1
        .ok res.2
      else .ok st1)
    st

/-- Per rhs_start body (logic.calculate lines 174-232). -/
def process_rhs_start (G_rhs : PyGraph) (rhs_to_lhs lhs_to_input : List (NodeId × NodeId))
    (lhs_to_rhs : List (NodeId × List NodeId)) (input_id : NodeId)
    (st : RState) (rhs_start : NodeId) : Except PyErr RState :=
  if !(G_rhs.hasNode rhs_start) then .ok st
  else do
    let fuel := (G_rhs.nodes.length + 1) * (G_rhs.nodes.length + 1) + 1
    let out ← bfs_loop G_rhs rhs_to_lhs lhs_to_input fuel [(rhs_start, input_id)] [] st
    orphan_scan G_rhs lhs_to_rhs out.1 out.2

/-- Main per-LHS-node dispatch (logic.calculate lines 159-232):
unmapped LHS ignored; empty rhs_list deletes the matched input node;
otherwise one BFS plus scan per corresponding RHS node. -/
def process_lhs_node (G_rhs : PyGraph) (rhs_to_lhs lhs_to_input : List (NodeId × NodeId))
    (lhs_to_rhs : List (NodeId × List NodeId)) (st : RState) (lhs_id : NodeId) :
    Except PyErr RState :=
  match dget lhs_to_input lhs_id with
  | none => .ok st
  | some input_id =>
    match dgetL lhs_to_rhs lhs_id with
    | [] =>
      if st.G_in.hasNode input_id then .ok { st with G_in := st.G_in.remove_node input_id }
      else .ok st
    | r :: rs =>
      (r :: rs).foldlM (process_rhs_start G_rhs rhs_to_lhs lhs_to_input lhs_to_rhs input_id) st

/-- Edge deletion pass body (logic.calculate lines 237-269) for one
LHS edge. -/
def edge_pass_step (G_rhs : PyGraph) (lhs_to_input : List (NodeId × NodeId))
    (lhs_to_rhs : List (NodeId × List NodeId)) (g : PyGraph) (e : NodeId × NodeId) : PyGraph :=
  match dget lhs_to_input e.1, dget lhs_to_input e.2 with
  | some in_u, some in_v =>
    let rhs_us := dgetL lhs_to_rhs e.1
    let rhs_vs := dgetL lhs_to_rhs e.2
    let rhs_has_edge := rhs_us.any (fun ru => rhs_vs.any (fun rv => G_rhs.hasEdge ru rv))
    if rhs_has_edge then g
    else if g.hasEdge in_u in_v then g.remove_edge in_u in_v
    else if g.hasEdge in_v in_u then g.remove_edge in_v in_u
    else g
  | _, _ => g

/-- logic.calculate through the edge-deletion pass, returning the
final working state (graph, counter, memo, allocation trace). -/
def calculateT (req : CalculateRequest) : Except PyErr RState := do
  let G_in := req.graph_input.to_networkx
  let G_lhs := req.graph_lhs.to_networkx
  let G_rhs := req.graph_rhs.to_networkx
  let lhs_to_input := norm_ids req.mapping_lhs_to_input
  let rhs_to_lhs := norm_ids req.mapping_rhs_to_lhs
  let lhs_to_rhs := build_lhs_to_rhs rhs_to_lhs
  check_morphism G_in G_lhs lhs_to_input
  let st0 : RState := ⟨G_in, max_input_id G_in + 1, [], []⟩
  let st1 ← (G_lhs.nodes.map Prod.fst).foldlM
    (process_lhs_node G_rhs rhs_to_lhs lhs_to_input lhs_to_rhs) st0
  let g2 := (node_link_edges G_lhs).foldl (edge_pass_step G_rhs lhs_to_input lhs_to_rhs) st1.G_in
  .ok { st1 with G_in := g2 }

/-- Serialization back to node-link form (logic.calculate lines
272-288): node dict get("x") yields None for nodes lacking the key. -/
def attr_out (a : Option (Option Int)) : Option Int :=
  match a with
  | none => none
  | some v => v

def node_link_data (g : PyGraph) (meta : Meta) : NodeLinkGraph :=
  { graph := meta
  , nodes := g.nodes.map (fun p => { id := p.1, x := attr_out p.2.x, y := attr_out p.2.y })
  , links := (node_link_edges g).map (fun e => { source := e.1, target := e.2 }) }

/-- logic.calculate as exposed by api.py. -/
def calculate (req : CalculateRequest) : Except PyErr NodeLinkGraph :=
  (calculateT req).map (fun st => node_link_data st.G_in req.graph_input.graph)

/-! Definitions modelled from the spec, for comparison with the code. -/

/-- Modelled from the spec: the Position Synthesizer coordinate
formula, new = input_anchor + (rhs_id - rhs_anchor), one axis. -/
def spec_new_coord (input_anchor rhs_id_c rhs_anchor : Int) : Int :=
  input_anchor + (rhs_id_c - rhs_anchor)

/-- Modelled from the spec: the Identifier Allocator initial counter,
max over the identifiers that parse as integers plus one, or 1 when
none parse or the graph is empty. -/
def spec_init_next_id (g : PyGraph) : Int :=
  match (g.nodes.map Prod.fst).filterMap int_of_node_id with
  | [] => 1
  | x :: xs => xs.foldl max x + 1

/-! Decidable observation helpers used in theorem statements. -/

/-- Every edge has both endpoints among the graph's nodes. -/
def edges_well_formed (g : PyGraph) : Bool :=
  g.edges.all (fun e => g.hasNode e.1 && g.hasNode e.2)

/-- Number of parallel copies between u and v (either orientation). -/
def cntEdges (g : PyGraph) (u v : NodeId) : Nat :=
  g.edges.countP (edgeMatches u v)

/-- The id v appears neither as a node nor as an edge endpoint. -/
def no_touch (g : PyGraph) (v : NodeId) : Bool :=
  g.nodes.all (fun p => decide (p.1 ≠ v)) &&
    g.edges.all (fun e => decide (e.1 ≠ v) && decide (e.2 ≠ v))

def all_distinct : List Int → Bool
  | [] => true
  | x :: xs => !(xs.contains x) && all_distinct xs

def all_gt (m : Int) (l : List Int) : Bool :=
  l.all (fun c => decide (m < c))

def fresh_vs_ids (created : List Int) (ids : List NodeId) : Bool :=
  created.all (fun c => ids.all (fun nid => decide (NodeId.i c ≠ nid)))

/-- Allocator invariant carried through the rewrite pipeline: the
counter never moves below start, every traced allocation lies in
[start, counter) and the trace is strictly increasing, and every memo
value is a traced allocation bound the same way. -/
def AllocInv (start : Int) (st : RState) : Prop :=
  start ≤ st.next_new_id ∧
  (∀ c ∈ st.created_ids, start ≤ c ∧ c < st.next_new_id) ∧
  st.created_ids.Chain' (· < ·) ∧
  (∀ p ∈ st.rhs_new_to_input, start ≤ p.2 ∧ p.2 < st.next_new_id)

/-- Deletion invariant: allocator invariant, no dangling edges, and
the id X appears nowhere in the working graph. -/
def DelInv (start : Int) (X : NodeId) (st : RState) : Prop :=
  AllocInv start st ∧ edges_well_formed st.G_in = true ∧ no_touch st.G_in X = true

/-! Concrete requests used in the claim theorems.  Coordinates and ids
are small integers, so rational arithmetic coincides with Python float
arithmetic on them. -/

def mkNode (k : Int) (a b : Int) : Node := ⟨.i k, some a, some b⟩

/-- One preserved node at (1,0); RHS adds a neighbor displaced by
(5,0) from its RHS anchor at (0,0). -/
def req1 : CalculateRequest :=
  { mapping_lhs_to_input := [(.i 10, .i 1)]
  , mapping_rhs_to_lhs := [(.i 20, .i 10)]
  , graph_input := ⟨[], [mkNode 1 1 0], []⟩
  , graph_lhs := ⟨[], [mkNode 10 0 0], []⟩
  , graph_rhs := ⟨[], [mkNode 20 0 0, mkNode 21 5 0], [⟨.i 20, .i 21⟩]⟩ }

/-- One preserved node plus two orphan RHS-only nodes 30 and 40
(disconnected from every anchor). -/
def req4 : CalculateRequest :=
  { mapping_lhs_to_input := [(.i 10, .i 1)]
  , mapping_rhs_to_lhs := [(.i 20, .i 10)]
  , graph_input := ⟨[], [mkNode 1 0 0], []⟩
  , graph_lhs := ⟨[], [mkNode 10 0 0], []⟩
  , graph_rhs := ⟨[], [mkNode 20 0 0, mkNode 30 1 0, mkNode 40 2 0], []⟩ }

/-- Input ids are the non-numeric string a and the integer 1; the rule
creates one RHS-only node. -/
def req5 : CalculateRequest :=
  { mapping_lhs_to_input := [(.i 10, .i 1)]
  , mapping_rhs_to_lhs := [(.i 20, .i 10)]
  , graph_input := ⟨[], [⟨.s "a", some 0, some 0⟩, mkNode 1 0 0], []⟩
  , graph_lhs := ⟨[], [mkNode 10 0 0], []⟩
  , graph_rhs := ⟨[], [mkNode 20 0 0, mkNode 21 5 0], [⟨.i 20, .i 21⟩]⟩ }

/-- Input node written as the integer 5, referenced by the match. -/
def req6a : CalculateRequest :=
  { mapping_lhs_to_input := [(.i 10, .i 5)]
  , mapping_rhs_to_lhs := []
  , graph_input := ⟨[], [mkNode 5 0 0], []⟩
  , graph_lhs := ⟨[], [mkNode 10 0 0], []⟩
  , graph_rhs := ⟨[], [], []⟩ }

/-- Same request with the input node id written as the string "5". -/
def req6b : CalculateRequest :=
  { mapping_lhs_to_input := [(.i 10, .i 5)]
  , mapping_rhs_to_lhs := []
  , graph_input := ⟨[], [⟨.s "5", some 0, some 0⟩], []⟩
  , graph_lhs := ⟨[], [mkNode 10 0 0], []⟩
  , graph_rhs := ⟨[], [], []⟩ }

/-- Single LHS node matched to an input node carrying a self-loop. -/
def req7 : CalculateRequest :=
  { mapping_lhs_to_input := [(.i 10, .i 1)]
  , mapping_rhs_to_lhs := []
  , graph_input := ⟨[], [mkNode 1 0 0], [⟨.i 1, .i 1⟩]⟩
  , graph_lhs := ⟨[], [mkNode 10 0 0], []⟩
  , graph_rhs := ⟨[], [], []⟩ }

/-- The input link references node 2, which is not among the nodes. -/
def req8 : CalculateRequest :=
  { mapping_lhs_to_input := []
  , mapping_rhs_to_lhs := []
  , graph_input := ⟨[], [mkNode 1 0 0], [⟨.i 1, .i 2⟩]⟩
  , graph_lhs := ⟨[], [], []⟩
  , graph_rhs := ⟨[], [], []⟩ }

/-- Non-injective match: LHS 10 (deleted) and LHS 11 (preserved) both
map to input node 1; LHS 10 is processed first. -/
def reqC3x : CalculateRequest :=
  { mapping_lhs_to_input := [(.i 10, .i 1), (.i 11, .i 1), (.i 12, .i 2)]
  , mapping_rhs_to_lhs := [(.i 20, .i 11), (.i 21, .i 12)]
  , graph_input := ⟨[], [mkNode 1 0 0, mkNode 2 0 0], []⟩
  , graph_lhs := ⟨[], [mkNode 10 0 0, mkNode 11 0 0, mkNode 12 0 0], []⟩
  , graph_rhs := ⟨[], [mkNode 20 0 0, mkNode 21 0 0], [⟨.i 20, .i 21⟩]⟩ }

/-- reqC3x with the LHS node collection permuted so that the deletion
of node 1 happens after the preservation pass. -/
def reqC9b : CalculateRequest :=
  { reqC3x with graph_lhs := ⟨[], [mkNode 11 0 0, mkNode 12 0 0, mkNode 10 0 0], []⟩ }

/-- LHS edge (11,12) has the RHS pair edge (20,21), but LHS node 10
(deleted, sharing the match image of 11) drags the input edge away. -/
def reqC2x : CalculateRequest :=
  { mapping_lhs_to_input := [(.i 10, .i 1), (.i 11, .i 1), (.i 12, .i 2)]
  , mapping_rhs_to_lhs := [(.i 20, .i 11), (.i 21, .i 12)]
  , graph_input := ⟨[], [mkNode 1 0 0, mkNode 2 0 0], [⟨.i 1, .i 2⟩]⟩
  , graph_lhs := ⟨[], [mkNode 11 0 0, mkNode 12 0 0, mkNode 10 0 0]
      , [⟨.i 11, .i 12⟩, ⟨.i 10, .i 12⟩]⟩
  , graph_rhs := ⟨[], [mkNode 20 0 0, mkNode 21 0 0], [⟨.i 20, .i 21⟩]⟩ }

/-- Pure deletion of the middle node of a path (spec scenario A). -/
def reqA : CalculateRequest :=
  { mapping_lhs_to_input := [(.i 10, .i 2)]
  , mapping_rhs_to_lhs := []
  , graph_input := ⟨[], [mkNode 1 0 0, mkNode 2 0 0, mkNode 3 0 0]
      , [⟨.i 1, .i 2⟩, ⟨.i 2, .i 3⟩]⟩
  , graph_lhs := ⟨[], [mkNode 10 0 0], []⟩
  , graph_rhs := ⟨[], [], []⟩ }

/-- LHS edge (10,11) whose endpoint 11 has no RHS counterpart: the
input edge (1,2) disappears with node 2. -/
def reqEdel : CalculateRequest :=
  { mapping_lhs_to_input := [(.i 10, .i 1), (.i 11, .i 2)]
  , mapping_rhs_to_lhs := [(.i 20, .i 10)]
  , graph_input := ⟨[], [mkNode 1 0 0, mkNode 2 0 0], [⟨.i 1, .i 2⟩]⟩
  , graph_lhs := ⟨[], [mkNode 10 0 0, mkNode 11 0 0], [⟨.i 10, .i 11⟩]⟩
  , graph_rhs := ⟨[], [mkNode 20 0 0], []⟩ }

/-!
Generic infrastructure lemmas.
-/

theorem except_bind_ok {α β : Type} {x : Except PyErr α} {f : α → Except PyErr β} {c : β}
    (h : (x >>= f) = .ok c) : ∃ b, x = .ok b ∧ f b = .ok c := by
  cases x with
  | error e => exact absurd h (by simp [Bind.bind, Except.bind])
  | ok b => exact ⟨b, rfl, h⟩

theorem foldlME_inv {α β : Type} (P : β → Prop) (f : β → α → Except PyErr β)
    (hf : ∀ b a b', P b → f b a = .ok b' → P b') :
    ∀ (l : List α) (b b' : β), P b → l.foldlM f b = .ok b' → P b' := by
  intro l
  induction l with
  | nil =>
    intro b b' hP h
    rw [List.foldlM_nil] at h
    cases h
    exact hP
  | cons a l ih =>
    intro b b' hP h
    rw [List.foldlM_cons] at h
    obtain ⟨b1, hb1, hrest⟩ := except_bind_ok h
    exact ih b1 b' (hf b a b1 hP hb1) hrest

theorem foldl_inv {α β : Type} (P : β → Prop) (f : β → α → β)
    (hf : ∀ b a, P b → P (f b a)) : ∀ (l : List α) (b : β), P b → P (l.foldl f b) := by
  intro l
  induction l with
  | nil => intro b hP; simpa using hP
  | cons a l ih =>
    intro b hP
    rw [List.foldl_cons]
    exact ih (f b a) (hf b a hP)

/-!
Graph operation lemmas.
-/

theorem edges_addNode (g : PyGraph) (v : NodeId) (a : Attrs) :
    (g.addNode v a).edges = g.edges := by
  unfold PyGraph.addNode
  split <;> rfl

theorem edges_addNodeIfAbsent (g : PyGraph) (v : NodeId) :
    (g.addNodeIfAbsent v).edges = g.edges := by
  unfold PyGraph.addNodeIfAbsent
  split <;> rfl

theorem edges_add_edge (g : PyGraph) (u v : NodeId) :
    (g.add_edge u v).edges = g.edges ++ [(u, v)] := by
  show ((g.addNodeIfAbsent u).addNodeIfAbsent v).edges ++ [(u, v)] = g.edges ++ [(u, v)]
  rw [edges_addNodeIfAbsent, edges_addNodeIfAbsent]

theorem nodes_fst_addNode (g : PyGraph) (v : NodeId) (a : Attrs) (h : g.hasNode v = true) :
    (g.addNode v a).nodes.map Prod.fst = g.nodes.map Prod.fst := by
  unfold PyGraph.addNode
  rw [h]
  simp only [if_true, List.map_map]
  apply List.map_congr_left
  intro p _
  simp only [Function.comp_apply]
  split <;> rfl

theorem hasNode_iff (g : PyGraph) (w : NodeId) :
    g.hasNode w = true ↔ w ∈ g.nodes.map Prod.fst := by
  unfold PyGraph.hasNode
  rw [List.any_eq_true]
  constructor
  · rintro ⟨p, hp, hw⟩
    rw [decide_eq_true_iff] at hw
    exact hw ▸ List.mem_map_of_mem Prod.fst hp
  · intro hw
    obtain ⟨p, hp, hpw⟩ := List.mem_map.mp hw
    exact ⟨p, hp, by rw [decide_eq_true_iff]; exact hpw⟩

theorem hasNode_addNode (g : PyGraph) (v : NodeId) (a : Attrs) (w : NodeId) :
    (g.addNode v a).hasNode w = true ↔ (g.hasNode w = true ∨ w = v) := by
  by_cases h : g.hasNode v = true
  · rw [hasNode_iff, nodes_fst_addNode g v a h, ← hasNode_iff]
    constructor
    · exact Or.inl
    · rintro (hw | rfl)
      · exact hw
      · exact h
  · unfold PyGraph.addNode
    rw [if_neg h]
    show (PyGraph.mk (g.nodes ++ [(v, a)]) g.edges).hasNode w = true ↔ _
    rw [hasNode_iff]
    simp only [List.map_append, List.mem_append, ← hasNode_iff]
    simp

theorem hasNode_addNodeIfAbsent (g : PyGraph) (v w : NodeId) :
    (g.addNodeIfAbsent v).hasNode w = true ↔ (g.hasNode w = true ∨ w = v) := by
  unfold PyGraph.addNodeIfAbsent
  split
  · rename_i h
    constructor
    · exact Or.inl
    · rintro (hw | rfl)
      · exact hw
      · exact h
  · show (PyGraph.mk (g.nodes ++ [(v, emptyAttrs)]) g.edges).hasNode w = true ↔ _
    rw [hasNode_iff]
    simp only [List.map_append, List.mem_append, ← hasNode_iff]
    simp

theorem hasNode_add_edge (g : PyGraph) (u v w : NodeId) :
    (g.add_edge u v).hasNode w = true ↔ (g.hasNode w = true ∨ w = u ∨ w = v) := by
  show ((g.addNodeIfAbsent u).addNodeIfAbsent v).hasNode w = true ↔ _
  rw [hasNode_addNodeIfAbsent, hasNode_addNodeIfAbsent]
  tauto

/-!
Well-formedness: every edge endpoint is a node.  This is the no-dangling
invariant; to_networkx establishes it and every engine operation keeps it.
-/

theorem wf_iff (g : PyGraph) :
    edges_well_formed g = true ↔
    ∀ e ∈ g.edges, g.hasNode e.1 = true ∧ g.hasNode e.2 = true := by
  unfold edges_well_formed
  rw [List.all_eq_true]
  constructor
  · intro h e he
    have := h e he
    rwa [Bool.and_eq_true] at this
  · intro h e he
    rw [Bool.and_eq_true]
    exact h e he

theorem wf_addNode (g : PyGraph) (v : NodeId) (a : Attrs)
    (h : edges_well_formed g = true) : edges_well_formed (g.addNode v a) = true := by
  rw [wf_iff] at h ⊢
  intro e he
  rw [edges_addNode] at he
  obtain ⟨h1, h2⟩ := h e he
  exact ⟨(hasNode_addNode g v a e.1).mpr (Or.inl h1),
    (hasNode_addNode g v a e.2).mpr (Or.inl h2)⟩

theorem wf_add_edge (g : PyGraph) (u v : NodeId)
    (h : edges_well_formed g = true) : edges_well_formed (g.add_edge u v) = true := by
  rw [wf_iff] at h ⊢
  intro e he
  rw [edges_add_edge, List.mem_append] at he
  rcases he with he | he
  · obtain ⟨h1, h2⟩ := h e he
    exact ⟨(hasNode_add_edge g u v e.1).mpr (Or.inl h1),
      (hasNode_add_edge g u v e.2).mpr (Or.inl h2)⟩
  · rw [List.mem_singleton] at he
    subst he
    exact ⟨(hasNode_add_edge g u v u).mpr (Or.inr (Or.inl rfl)),
      (hasNode_add_edge g u v v).mpr (Or.inr (Or.inr rfl))⟩

theorem wf_remove_node (g : PyGraph) (v : NodeId)
    (h : edges_well_formed g = true) : edges_well_formed (g.remove_node v) = true := by
  rw [wf_iff] at h ⊢
  intro e he
  unfold PyGraph.remove_node at he
  simp only [List.mem_filter, Bool.and_eq_true, decide_eq_true_iff] at he
  obtain ⟨he, hne1, hne2⟩ := he
  obtain ⟨h1, h2⟩ := h e he
  constructor
  · rw [hasNode_iff] at h1 ⊢
    unfold PyGraph.remove_node
    simp only [List.mem_map, List.mem_filter]
    obtain ⟨p, hp, hpe⟩ := List.mem_map.mp h1
    exact ⟨p, ⟨hp, by rw [decide_eq_true_iff]; rw [hpe]; exact hne1⟩, hpe⟩
  · rw [hasNode_iff] at h2 ⊢
    unfold PyGraph.remove_node
    simp only [List.mem_map, List.mem_filter]
    obtain ⟨p, hp, hpe⟩ := List.mem_map.mp h2
    exact ⟨p, ⟨hp, by rw [decide_eq_true_iff]; rw [hpe]; exact hne2⟩, hpe⟩

theorem eraseFirstP_sublist (p : NodeId × NodeId → Bool) :
    ∀ l : List (NodeId × NodeId), List.Sublist (eraseFirstP p l) l := by
  intro l
  induction l with
  | nil => simp [eraseFirstP]
  | cons e rest ih =>
    unfold eraseFirstP
    split
    · exact List.sublist_cons_self e rest
    · exact List.Sublist.cons₂ e ih

theorem edges_remove_edge_sublist (g : PyGraph) (u v : NodeId) :
    List.Sublist (g.remove_edge u v).edges g.edges := by
  show List.Sublist (eraseFirstP (edgeMatches u v) g.edges.reverse).reverse g.edges
  have h := (eraseFirstP_sublist (edgeMatches u v) g.edges.reverse).reverse
  rwa [List.reverse_reverse] at h

theorem wf_remove_edge (g : PyGraph) (u v : NodeId)
    (h : edges_well_formed g = true) : edges_well_formed (g.remove_edge u v) = true := by
  rw [wf_iff] at h ⊢
  intro e he
  have hmem : e ∈ g.edges := (edges_remove_edge_sublist g u v).mem he
  obtain ⟨h1, h2⟩ := h e hmem
  exact ⟨h1, h2⟩

theorem wf_to_networkx (g : NodeLinkGraph) : edges_well_formed g.to_networkx = true := by
  show edges_well_formed (g.links.foldl (fun acc l => acc.add_edge l.source l.target)
    (g.nodes.foldl (fun acc n => acc.addNode n.id ⟨some n.x, some n.y⟩) ⟨[], []⟩)) = true
  exact foldl_inv (fun gg => edges_well_formed gg = true) _
    (fun acc l h => wf_add_edge acc l.source l.target h) _ _
    (foldl_inv (fun gg => edges_well_formed gg = true) _
      (fun acc n h => wf_addNode acc n.id ⟨some n.x, some n.y⟩ h) _ _ rfl)

/-!
Claim theorems.
-/

/-- C1: the code places the materialized RHS-only node at coordinates
that DOUBLE the input anchor contribution.  On req1 the input anchor
sits at x = 1, the RHS displacement is 5 - 0 = 5, so the claimed
formula input_anchor.x + (rhs_id.x - rhs_anchor.x) yields 6, while the
engine (source line new_x += new_x + dx) produces 7: the new node
appears at (7, 0).  Every coordinate attribute involved is present, so
the 0.0 default plays no role here; the arithmetic itself deviates. -/
theorem C1_doubling_eval :
    calculate req1 = .ok ⟨[], [⟨.i 1, some 1, some 0⟩, ⟨.i 2, some 7, some 0⟩],
      [⟨.i 1, .i 2⟩]⟩ ∧
    spec_new_coord 1 5 0 = 6 ∧ (7 : Int) ≠ 6 := by
  refine ⟨by rfl, by rfl, by decide⟩

/-- C4: req4 has three RHS nodes 20 (corresponded), 30 and 40 (both
RHS-only orphans), yet the output contains only the preserved node 1
and a single created node 2: exactly one identifier was allocated, so
RHS node 40 yields no Input node at all.  The orphan call passes None
as the memo key, so the second orphan hits the memo of the first. -/
theorem C4_orphan_dropped_eval :
    calculate req4 = .ok ⟨[], [⟨.i 1, some 0, some 0⟩, ⟨.i 2, some 0, some 0⟩], []⟩ ∧
    (calculateT req4).map (fun st => st.created_ids) = .ok [2] ∧
    req4.graph_rhs.nodes.map Node.id = [.i 20, .i 30, .i 40] ∧
    dget (norm_ids req4.mapping_rhs_to_lhs) (.i 30) = none ∧
    dget (norm_ids req4.mapping_rhs_to_lhs) (.i 40) = none := by
  refine ⟨by rfl, by rfl, by rfl, by rfl, by rfl⟩

/-- C2 counterexample: in reqC2x the LHS edge (11,12) has both matches
defined (11 to 1, 12 to 2) and the corresponding RHS pair (20,21) DOES
have an RHS edge, yet the output graph contains no edge at all: LHS
node 10 (deleted, sharing input image 1 with node 11) removed input
node 1 together with the edge (1,2).  The stated iff therefore fails
in its only-if-absent direction. -/
theorem C2_counterexample :
    calculate reqC2x = .ok ⟨[], [⟨.i 2, some 0, some 0⟩], []⟩ ∧
    (reqC2x.graph_lhs.to_networkx).hasEdge (.i 11) (.i 12) = true ∧
    dget (norm_ids reqC2x.mapping_lhs_to_input) (.i 11) = some (.i 1) ∧
    dget (norm_ids reqC2x.mapping_lhs_to_input) (.i 12) = some (.i 2) ∧
    dgetL (build_lhs_to_rhs (norm_ids reqC2x.mapping_rhs_to_lhs)) (.i 11) = [.i 20] ∧
    dgetL (build_lhs_to_rhs (norm_ids reqC2x.mapping_rhs_to_lhs)) (.i 12) = [.i 21] ∧
    (reqC2x.graph_rhs.to_networkx).hasEdge (.i 20) (.i 21) = true := by
  refine ⟨by rfl, by rfl, by rfl, by rfl, by rfl, by rfl, by rfl⟩

/-- C3 counterexample: in reqC3x the LHS node 10 has an empty set of
RHS correspondents and its match, input node 1, is deleted during its
pass; but LHS node 11 (preserved) shares the match image 1, and its
frontier expansion calls ensure_edge(1, 2), whose add_edge silently
re-creates node 1.  The output contains node 1 (bare, no coordinates)
and an edge incident to it, refuting both parts of the claim. -/
theorem C3_counterexample :
    calculate reqC3x = .ok ⟨[], [⟨.i 2, some 0, some 0⟩, ⟨.i 1, none, none⟩],
      [⟨.i 2, .i 1⟩]⟩ ∧
    dget (norm_ids reqC3x.mapping_lhs_to_input) (.i 10) = some (.i 1) ∧
    dgetL (build_lhs_to_rhs (norm_ids reqC3x.mapping_rhs_to_lhs)) (.i 10) = [] := by
  refine ⟨by rfl, by rfl, by rfl⟩

/-- C5 counterexample: req5's input ids are the string a and the
integer 1.  max(int(n) for n in nodes) raises on a, so the counter
falls back to 0 + 1 = 1 even though id 1 exists and the spec-modelled
allocator start would be 2: the single allocated id is 1, equal to a
pre-existing input id (the created node overwrites node 1's
coordinates), violating both the strictly-greater and the
distinctness guarantees. -/
theorem C5_counterexample :
    (calculateT req5).map (fun st => st.created_ids) = .ok [1] ∧
    (NodeId.i 1) ∈ req5.graph_input.nodes.map Node.id ∧
    spec_init_next_id (req5.graph_input.to_networkx) = 2 ∧
    max_input_id (req5.graph_input.to_networkx) + 1 = 1 ∧
    calculate req5 = .ok ⟨[], [⟨.s "a", some 0, some 0⟩, ⟨.i 1, some 5, some 0⟩],
      [⟨.i 1, .i 1⟩]⟩ := by
  refine ⟨by rfl, by decide, by rfl, by rfl, by rfl⟩

/-- C6 counterexample: req6a and req6b are identical except that the
single input node id is the integer 5 in one and the string "5" in
the other (to_int_helper maps the latter to the former).  The engine
accepts req6a and rejects req6b with a NetworkXError: graph node ids
are taken raw, only the mapping dicts are normalized, so 5 and "5"
are NOT treated as the same node. -/
theorem C6_counterexample :
    calculate req6a = .ok ⟨[], [], []⟩ ∧
    calculate req6b = .error (.networkx "The node 5 is not in the graph.") ∧
    req6a.graph_input.nodes.map Node.id = [.i 5] ∧
    req6b.graph_input.nodes.map Node.id = [.s "5"] ∧
    to_int_helper (.s "5") = .i 5 ∧
    req6a.mapping_lhs_to_input = req6b.mapping_lhs_to_input ∧
    req6a.graph_lhs = req6b.graph_lhs ∧ req6a.graph_rhs = req6b.graph_rhs := by
  refine ⟨by rfl, by rfl, by rfl, by rfl, by rfl, by rfl, by rfl, by rfl⟩

/-- C7 counterexample: req7 has a single LHS node 10 matched to input
node 1, which carries a self-loop; LHS has no self-loop at 10.  There
is no pair of DISTINCT LHS nodes at all (the node list is a
singleton), yet the morphism validator rejects with no morphism: the
source guard if l == lhs_id: pass is a no-op and the extra-structure
check fires on l2 = l. -/
theorem C7_counterexample :
    calculate req7 = .error no_morphism ∧
    req7.graph_lhs.nodes.map Node.id = [.i 10] ∧
    (req7.graph_input.to_networkx).hasEdge (.i 1) (.i 1) = true ∧
    (req7.graph_lhs.to_networkx).hasEdge (.i 10) (.i 10) = false ∧
    ((req7.graph_lhs.to_networkx).nodes.map Prod.fst).all
      (fun l => ((req7.graph_lhs.to_networkx).nodes.map Prod.fst).all
        (fun l2 => decide (l = l2))) = true := by
  refine ⟨by rfl, by rfl, by rfl, by rfl, by rfl⟩

/-- C8 counterexample: req8's only link references node 2, which does
not exist among the request's nodes, yet the engine does not reject:
it returns a graph in which node 2 has been silently created (with no
coordinates) and the edge kept.  No MalformedGraph rejection exists. -/
theorem C8_counterexample :
    calculate req8 = .ok ⟨[], [⟨.i 1, some 0, some 0⟩, ⟨.i 2, none, none⟩],
      [⟨.i 1, .i 2⟩]⟩ ∧
    req8.graph_input.nodes.map Node.id = [.i 1] ∧
    req8.graph_input.links = [⟨.i 1, .i 2⟩] := by
  refine ⟨by rfl, by rfl, by rfl⟩

/-- C9 counterexample: reqC9b permutes reqC3x's LHS node collection
(all other request fields equal), yet the outputs differ: with the
deleting node 10 first, frontier expansion later re-creates input
node 1 and an edge; with node 10 last, the deletion wins and the
output is the single node 2. -/
theorem C9_counterexample :
    calculate reqC3x = .ok ⟨[], [⟨.i 2, some 0, some 0⟩, ⟨.i 1, none, none⟩],
      [⟨.i 2, .i 1⟩]⟩ ∧
    calculate reqC9b = .ok ⟨[], [⟨.i 2, some 0, some 0⟩], []⟩ ∧
    (⟨[], [⟨.i 2, some 0, some 0⟩, ⟨.i 1, none, none⟩], [⟨.i 2, .i 1⟩]⟩ : NodeLinkGraph) ≠
      ⟨[], [⟨.i 2, some 0, some 0⟩], []⟩ ∧
    reqC9b.graph_lhs.nodes.Perm reqC3x.graph_lhs.nodes ∧
    reqC9b.graph_input = reqC3x.graph_input ∧
    reqC9b.graph_rhs = reqC3x.graph_rhs ∧
    reqC9b.mapping_lhs_to_input = reqC3x.mapping_lhs_to_input ∧
    reqC9b.mapping_rhs_to_lhs = reqC3x.mapping_rhs_to_lhs := by
  refine ⟨by rfl, by rfl, by decide, by decide, by rfl, by rfl, by rfl, by rfl⟩

end SPO

namespace SPO

/-- C7 amended: the extra-structure loop of the morphism validator
rejects with no morphism exactly when SOME LHS node l (the case
l = lhs_id included, since the source guard is a no-op) has a match
image adjacent to input_id in Input while LHS lacks the edge between
lhs_id and l.  In particular an Input self-loop at match(l) with no
LHS self-loop at l does trigger the rejection. -/
theorem C7_extra_check_amended (G_in G_lhs : PyGraph)
    (lhs_to_input : List (NodeId × NodeId)) (lhs_id input_id : NodeId)
    (nodes : List NodeId) :
    extra_edges_check G_in G_lhs lhs_to_input lhs_id input_id nodes = .error no_morphism ↔
    nodes.any (extra_violation G_in G_lhs lhs_to_input lhs_id input_id) = true := by
  induction nodes with
  | nil => simp [extra_edges_check]
  | cons l rest ih =>
    cases h : extra_violation G_in G_lhs lhs_to_input lhs_id input_id l with
    | true => simp [extra_edges_check, h]
    | false => simp [extra_edges_check, h, ih]

/-- C7 amended, witness: the extra check on req7's data (single LHS
node 10 matched to input node 1 carrying a self-loop) rejects. -/
theorem C7_extra_check_witness :
    extra_edges_check (req7.graph_input.to_networkx) (req7.graph_lhs.to_networkx)
      (norm_ids req7.mapping_lhs_to_input) (.i 10) (.i 1) [.i 10] = .error no_morphism :=
  (C7_extra_check_amended _ _ _ _ _ _).mpr (by rfl)

/-- C8 amended: an edge referencing a nonexistent node id is never
rejected; node_link_graph adds the missing endpoint silently, so the
parsed graph always satisfies the no-dangling-edge invariant. -/
theorem C8_no_dangling_amended (g : NodeLinkGraph) :
    edges_well_formed g.to_networkx = true :=
  wf_to_networkx g

/-- C9 amended: LHS iteration order is NOT inert for the final graph
(see the counterexample), but the two mechanisms the claim cites do
hold: the Position Synthesizer is memoized by its raw rhs_id argument
(a memo hit returns the recorded id and leaves the state untouched),
and ensure_edge is idempotent (a second application is a no-op). -/
theorem C9_memo_idempotent :
    (∀ (G_rhs : PyGraph) (rhs_id rhs_src input_src : Option NodeId) (st : RState) (k : Int),
      memo_get st.rhs_new_to_input rhs_id = some k →
      create_rhs_only_node G_rhs rhs_id rhs_src input_src st = .ok (.i k, st)) ∧
    (∀ (g : PyGraph) (u v : NodeId),
      ensure_edge (ensure_edge g u v).1 u v = ((ensure_edge g u v).1, false)) := by
  constructor
  · intro G_rhs rhs_id rhs_src input_src st k h
    unfold create_rhs_only_node
    rw [h]
  · intro g u v
    by_cases h1 : (!(g.hasEdge u v) && !(g.hasEdge v u)) = true
    · have hfst : (ensure_edge g u v).1 = g.add_edge u v := by
        unfold ensure_edge
        rw [if_pos h1]
      rw [hfst]
      have hself : (g.add_edge u v).hasEdge u v = true := by
        unfold PyGraph.hasEdge
        rw [edges_add_edge, List.any_append]
        simp [edgeMatches]
      unfold ensure_edge
      rw [hself]
      simp
    · have hfst : (ensure_edge g u v).1 = g := by
        unfold ensure_edge
        rw [if_neg h1]
      rw [hfst]
      unfold ensure_edge
      rw [if_neg h1]

/-- C9 amended, witness: a memo hit on rhs id 9 returns the recorded
input id 7 without touching the state, and ensure_edge applied twice
to the same pair adds nothing the second time. -/
theorem C9_memo_idempotent_witness :
    create_rhs_only_node ⟨[], []⟩ (some (.i 9)) none none
        ⟨⟨[], []⟩, 5, [(some (.i 9), 7)], [7]⟩ =
      .ok (.i 7, ⟨⟨[], []⟩, 5, [(some (.i 9), 7)], [7]⟩) ∧
    ensure_edge (ensure_edge ⟨[], []⟩ (.i 1) (.i 2)).1 (.i 1) (.i 2) =
      ((ensure_edge ⟨[], []⟩ (.i 1) (.i 2)).1, false) :=
  ⟨C9_memo_idempotent.1 _ _ _ _ _ 7 (by rfl), C9_memo_idempotent.2 _ _ _⟩

end SPO

namespace SPO

theorem mem_dinsert {m : List (NodeId × NodeId)} {k v : NodeId} {p : NodeId × NodeId}
    (h : p ∈ dinsert m k v) : p ∈ m ∨ p = (k, v) := by
  induction m with
  | nil =>
    right
    simpa [dinsert] using h
  | cons q rest ih =>
    obtain ⟨k0, v0⟩ := q
    rw [dinsert] at h
    by_cases hk : k0 = k
    · rw [if_pos hk] at h
      rcases List.mem_cons.mp h with h1 | h1
      · right; rw [h1, hk]
      · left; exact List.mem_cons_of_mem _ h1
    · rw [if_neg hk] at h
      rcases List.mem_cons.mp h with h1 | h1
      · left; rw [h1]; exact List.mem_cons_self _ _
      · rcases ih h1 with h2 | h2
        · left; exact List.mem_cons_of_mem _ h2
        · right; exact h2

theorem norm_ids_mem : ∀ (m acc : List (NodeId × NodeId)) (p : NodeId × NodeId),
    p ∈ m.foldl (fun acc2 q => dinsert acc2 (to_int_helper q.1) (to_int_helper q.2)) acc →
    p ∈ acc ∨ ∃ q ∈ m, p = (to_int_helper q.1, to_int_helper q.2) := by
  intro m
  induction m with
  | nil =>
    intro acc p h
    left
    simpa using h
  | cons q0 m ih =>
    intro acc p h
    rw [List.foldl_cons] at h
    rcases ih _ p h with hacc | ⟨q, hq, hpq⟩
    · rcases mem_dinsert hacc with h1 | h1
      · left; exact h1
      · right; exact ⟨q0, List.mem_cons_self _ _, h1⟩
    · right; exact ⟨q, List.mem_cons_of_mem _ hq, hpq⟩

theorem hasNode_nodes_fold (ns : List Node) :
    ∀ (base : PyGraph) (v : NodeId),
    ((ns.foldl (fun acc n => acc.addNode n.id ⟨some n.x, some n.y⟩) base).hasNode v = true) ↔
      (base.hasNode v = true ∨ ∃ n ∈ ns, n.id = v) := by
  induction ns with
  | nil => intro base v; simp
  | cons n ns ih =>
    intro base v
    rw [List.foldl_cons, ih, hasNode_addNode]
    constructor
    · rintro ((h | rfl) | ⟨n', hn', hid⟩)
      · exact Or.inl h
      · exact Or.inr ⟨n, List.mem_cons_self _ _, rfl⟩
      · exact Or.inr ⟨n', List.mem_cons_of_mem _ hn', hid⟩
    · rintro (h | ⟨n', hn', hid⟩)
      · exact Or.inl (Or.inl h)
      · rcases List.mem_cons.mp hn' with rfl | hn2
        · exact Or.inl (Or.inr hid.symm)
        · exact Or.inr ⟨n', hn2, hid⟩

theorem hasNode_links_fold (ls : List Link) :
    ∀ (base : PyGraph) (v : NodeId),
    ((ls.foldl (fun acc l => acc.add_edge l.source l.target) base).hasNode v = true) ↔
      (base.hasNode v = true ∨ ∃ l ∈ ls, l.source = v ∨ l.target = v) := by
  induction ls with
  | nil => intro base v; simp
  | cons l ls ih =>
    intro base v
    rw [List.foldl_cons, ih, hasNode_add_edge]
    constructor
    · rintro ((h | rfl | rfl) | ⟨l', hl', hid⟩)
      · exact Or.inl h
      · exact Or.inr ⟨l, List.mem_cons_self _ _, Or.inl rfl⟩
      · exact Or.inr ⟨l, List.mem_cons_self _ _, Or.inr rfl⟩
      · exact Or.inr ⟨l', List.mem_cons_of_mem _ hl', hid⟩
    · rintro (h | ⟨l', hl', hid⟩)
      · exact Or.inl (Or.inl h)
      · rcases List.mem_cons.mp hl' with rfl | hl2
        · rcases hid with hid | hid
          · exact Or.inl (Or.inr (Or.inl hid.symm))
          · exact Or.inl (Or.inr (Or.inr hid.symm))
        · exact Or.inr ⟨l', hl2, hid⟩

theorem hasNode_to_networkx (g : NodeLinkGraph) (v : NodeId) :
    (g.to_networkx).hasNode v = true ↔
      ((∃ n ∈ g.nodes, n.id = v) ∨ (∃ l ∈ g.links, l.source = v ∨ l.target = v)) := by
  show ((g.links.foldl (fun (acc : PyGraph) l => acc.add_edge l.source l.target)
    (g.nodes.foldl (fun (acc : PyGraph) n => acc.addNode n.id ⟨some n.x, some n.y⟩)
      ⟨[], []⟩)).hasNode v = true) ↔ _
  rw [hasNode_links_fold, hasNode_nodes_fold]
  have hbase : (PyGraph.mk [] []).hasNode v = false := rfl
  rw [hbase]
  simp

/-- C6 amended: normalization via to_int_helper is applied to every
key and value of the two mapping dicts, but NOT to graph node ids:
node membership in a parsed graph is by raw identifier equality over
the request's node list and link endpoints, so a node written 5 in a
graph and "5" in a mapping are distinct. -/
theorem C6_normalization_amended :
    (∀ (g : NodeLinkGraph) (v : NodeId),
      (g.to_networkx).hasNode v = true ↔
        ((∃ n ∈ g.nodes, n.id = v) ∨ (∃ l ∈ g.links, l.source = v ∨ l.target = v))) ∧
    (∀ m : List (NodeId × NodeId),
      (norm_ids m).all (fun p => m.any (fun q =>
        decide (p.1 = to_int_helper q.1) && decide (p.2 = to_int_helper q.2))) = true) := by
  constructor
  · exact hasNode_to_networkx
  · intro m
    rw [List.all_eq_true]
    intro p hp
    rcases norm_ids_mem m [] p hp with habs | ⟨q, hq, hpq⟩
    · simp at habs
    · rw [List.any_eq_true]
      refine ⟨q, hq, ?_⟩
      rw [hpq]
      simp

/-- C6 amended, witness: the graph of req6b contains the raw string id
"5" and not the integer 5, while normalizing the mapping of req6b
turns its value into the integer 5. -/
theorem C6_normalization_witness :
    (req6b.graph_input.to_networkx).hasNode (.s "5") = true ∧
    norm_ids [(.s "5", .s "5")] = [(.i 5, .i 5)] ∧
    ([(.i 5, .i 5)] : List (NodeId × NodeId)).all (fun p => [((.s "5" : NodeId), (.s "5" : NodeId))].any (fun q =>
      decide (p.1 = to_int_helper q.1) && decide (p.2 = to_int_helper q.2))) = true :=
  ⟨(C6_normalization_amended.1 req6b.graph_input (.s "5")).mpr
      (Or.inl ⟨⟨.s "5", some 0, some 0⟩, by simp [req6b], rfl⟩),
    by rfl,
    by rfl⟩

end SPO

namespace SPO

/-- Effect of create_rhs_only_node on the state: a memo hit returns
the recorded id unchanged; otherwise the current counter value is
allocated, the counter advances, the allocation is traced, the memo is
either untouched (the falsy-argument exit) or extended with the new
binding, and the only graph change is one add_node of the fresh id. -/
theorem create_shape {G_rhs : PyGraph} {rhs_id rhs_src input_src : Option NodeId}
    {st : RState} {nid : NodeId} {st' : RState}
    (h : create_rhs_only_node G_rhs rhs_id rhs_src input_src st = .ok (nid, st')) :
    (∃ k, memo_get st.rhs_new_to_input rhs_id = some k ∧ nid = .i k ∧ st' = st) ∨
    (nid = .i st.next_new_id ∧
      st'.next_new_id = st.next_new_id + 1 ∧
      st'.created_ids = st.created_ids ++ [st.next_new_id] ∧
      (st'.rhs_new_to_input = st.rhs_new_to_input ∨
        st'.rhs_new_to_input = st.rhs_new_to_input ++ [(rhs_id, st.next_new_id)]) ∧
      ∃ a, st'.G_in = st.G_in.addNode (.i st.next_new_id) a) := by
  unfold create_rhs_only_node at h
  cases hm : memo_get st.rhs_new_to_input rhs_id with
  | some k =>
    rw [hm] at h
    rw [Except.ok.injEq, Prod.mk.injEq] at h
    obtain ⟨h1, h2⟩ := h
    exact Or.inl ⟨k, rfl, h1.symm, h2.symm⟩
  | none =>
    rw [hm] at h
    obtain ⟨nx, hnx, h⟩ := except_bind_ok h
    obtain ⟨ny, hny, h⟩ := except_bind_ok h
    by_cases hb : (py_falsy rhs_src && py_falsy input_src) = true
    · rw [if_pos hb] at h
      rw [Except.ok.injEq, Prod.mk.injEq] at h
      obtain ⟨h1, h2⟩ := h
      refine Or.inr ?_
      rw [← h2]
      exact ⟨h1.symm, rfl, rfl, Or.inl rfl, ⟨_, rfl⟩⟩
    · rw [if_neg hb] at h
      obtain ⟨bx, hbx, h⟩ := except_bind_ok h
      obtain ⟨ax, hax, h⟩ := except_bind_ok h
      obtain ⟨by2, hby, h⟩ := except_bind_ok h
      obtain ⟨ay, hay, h⟩ := except_bind_ok h
      rw [Except.ok.injEq, Prod.mk.injEq] at h
      obtain ⟨h1, h2⟩ := h
      refine Or.inr ?_
      rw [← h2]
      exact ⟨h1.symm, rfl, rfl, Or.inr rfl, ⟨_, rfl⟩⟩

/-!
Preservation of graph-only predicates through the rewrite pipeline.
-/

theorem create_graphQ (Q : PyGraph → Prop)
    (haddN : ∀ g v a, Q g → Q (g.addNode v a))
    {G_rhs : PyGraph} {rhs_id rhs_src input_src : Option NodeId}
    {st : RState} {nid : NodeId} {st' : RState}
    (h : create_rhs_only_node G_rhs rhs_id rhs_src input_src st = .ok (nid, st'))
    (hQ : Q st.G_in) : Q st'.G_in := by
  rcases create_shape h with ⟨k, _, _, rfl⟩ | ⟨_, _, _, _, a, hG⟩
  · exact hQ
  · rw [hG]
    exact haddN _ _ _ hQ

theorem process_neighbor_graphQ (Q : PyGraph → Prop)
    (haddN : ∀ g v a, Q g → Q (g.addNode v a))
    (hens : ∀ g u v, Q g → Q (ensure_edge g u v).1)
    {G_rhs : PyGraph} {rhs_to_lhs lhs_to_input : List (NodeId × NodeId)}
    {visited : List NodeId} {rhs_cur input_cur : NodeId}
    {acc : List (NodeId × NodeId) × RState} {rhs_nbr : NodeId}
    {out : List (NodeId × NodeId) × RState}
    (h : process_neighbor G_rhs rhs_to_lhs lhs_to_input visited rhs_cur input_cur acc rhs_nbr
      = .ok out)
    (hQ : Q acc.2.G_in) : Q out.2.G_in := by
  unfold process_neighbor at h
  cases hg : dget rhs_to_lhs rhs_nbr with
  | none =>
    simp only [hg] at h
    obtain ⟨res, hres, h⟩ := except_bind_ok h
    rw [Except.ok.injEq] at h
    rw [← h]
    exact hens _ _ _ (create_graphQ Q haddN (by rw [← Prod.mk.eta (p := res)] at hres; exact hres) hQ)
  | some lhs_nbr =>
    simp only [hg] at h
    cases hi : dget lhs_to_input lhs_nbr with
    | none =>
      simp only [hi, Except.ok.injEq] at h
      rw [← h]
      exact hQ
    | some input_nbr =>
      simp only [hi, Except.ok.injEq] at h
      rw [← h]
      exact hens _ _ _ hQ

theorem bfs_graphQ (Q : PyGraph → Prop)
    (haddN : ∀ g v a, Q g → Q (g.addNode v a))
    (hens : ∀ g u v, Q g → Q (ensure_edge g u v).1)
    {G_rhs : PyGraph} {rhs_to_lhs lhs_to_input : List (NodeId × NodeId)} :
    ∀ (fuel : Nat) (queue : List (NodeId × NodeId)) (visited : List NodeId)
      (st : RState) (out : List NodeId × RState),
    bfs_loop G_rhs rhs_to_lhs lhs_to_input fuel queue visited st = .ok out →
    Q st.G_in → Q out.2.G_in := by
  intro fuel
  induction fuel with
  | zero =>
    intro queue visited st out h
    exact absurd h (by simp [bfs_loop])
  | succ fuel ih =>
    intro queue visited st out h hQ
    cases queue with
    | nil =>
      rw [bfs_loop] at h
      cases h
      exact hQ
    | cons q rest =>
      obtain ⟨rhs_cur, input_cur⟩ := q
      rw [bfs_loop] at h
      by_cases hv : rhs_cur ∈ visited
      · rw [if_pos hv] at h
        exact ih _ _ _ _ h hQ
      · rw [if_neg hv] at h
        obtain ⟨o1, ho1, h⟩ := except_bind_ok h
        refine ih _ _ _ _ h ?_
        refine foldlME_inv (fun acc => Q acc.2.G_in) _ ?_ _ _ _ hQ ho1
        intro b a b' hb hf
        exact process_neighbor_graphQ Q haddN hens hf hb

theorem orphan_scan_graphQ (Q : PyGraph → Prop)
    (haddN : ∀ g v a, Q g → Q (g.addNode v a))
    {G_rhs : PyGraph} {lhs_to_rhs : List (NodeId × List NodeId)}
    {visited : List NodeId} {st st' : RState}
    (h : orphan_scan G_rhs lhs_to_rhs visited st = .ok st')
    (hQ : Q st.G_in) : Q st'.G_in := by
  refine foldlME_inv (fun s => Q s.G_in) _ ?_ _ _ _ hQ h
  intro b a b' hb hf
  by_cases hc : (!(decide (a ∈ visited)) && !(dhasKeyL lhs_to_rhs a)) = true
  · rw [if_pos hc] at hf
    obtain ⟨res, hres, hf⟩ := except_bind_ok hf
    rw [Except.ok.injEq] at hf
    rw [← hf]
    exact create_graphQ Q haddN (by rw [← Prod.mk.eta (p := res)] at hres; exact hres) hb
  · rw [if_neg hc] at hf
    rw [Except.ok.injEq] at hf
    rw [← hf]
    exact hb

theorem process_rhs_start_graphQ (Q : PyGraph → Prop)
    (haddN : ∀ g v a, Q g → Q (g.addNode v a))
    (hens : ∀ g u v, Q g → Q (ensure_edge g u v).1)
    {G_rhs : PyGraph} {rhs_to_lhs lhs_to_input : List (NodeId × NodeId)}
    {lhs_to_rhs : List (NodeId × List NodeId)} {input_id : NodeId}
    {st : RState} {rhs_start : NodeId} {st' : RState}
    (h : process_rhs_start G_rhs rhs_to_lhs lhs_to_input lhs_to_rhs input_id st rhs_start
      = .ok st')
    (hQ : Q st.G_in) : Q st'.G_in := by
  unfold process_rhs_start at h
  by_cases hn : (!(G_rhs.hasNode rhs_start)) = true
  · rw [if_pos hn] at h
    rw [Except.ok.injEq] at h
    rw [← h]
    exact hQ
  · rw [if_neg hn] at h
    obtain ⟨o1, ho1, h⟩ := except_bind_ok h
    exact orphan_scan_graphQ Q haddN h (bfs_graphQ Q haddN hens _ _ _ _ _ ho1 hQ)

theorem process_lhs_node_graphQ (Q : PyGraph → Prop)
    (haddN : ∀ g v a, Q g → Q (g.addNode v a))
    (hens : ∀ g u v, Q g → Q (ensure_edge g u v).1)
    (hrem : ∀ g v, Q g → Q (g.remove_node v))
    {G_rhs : PyGraph} {rhs_to_lhs lhs_to_input : List (NodeId × NodeId)}
    {lhs_to_rhs : List (NodeId × List NodeId)}
    {st : RState} {lhs_id : NodeId} {st' : RState}
    (h : process_lhs_node G_rhs rhs_to_lhs lhs_to_input lhs_to_rhs st lhs_id = .ok st')
    (hQ : Q st.G_in) : Q st'.G_in := by
  unfold process_lhs_node at h
  cases hi : dget lhs_to_input lhs_id with
  | none =>
    simp only [hi, Except.ok.injEq] at h
    rw [← h]
    exact hQ
  | some input_id =>
    simp only [hi] at h
    cases hl : dgetL lhs_to_rhs lhs_id with
    | nil =>
      simp only [hl] at h
      by_cases hn : (st.G_in.hasNode input_id) = true
      · rw [if_pos hn] at h
        rw [Except.ok.injEq] at h
        rw [← h]
        exact hrem _ _ hQ
      · rw [if_neg hn] at h
        rw [Except.ok.injEq] at h
        rw [← h]
        exact hQ
    | cons r rs =>
      simp only [hl] at h
      refine foldlME_inv (fun s => Q s.G_in) _ ?_ _ _ _ hQ h
      intro b a b' hb hf
      exact process_rhs_start_graphQ Q haddN hens hf hb

/-- Inversion of a successful calculateT run: the morphism check
passed, the main loop produced an intermediate state st1, and the
result is st1 with the edge-deletion pass folded over its graph. -/
theorem calculateT_ok_inv {req : CalculateRequest} {st : RState}
    (h : calculateT req = .ok st) :
    ∃ st1 : RState,
      ((req.graph_lhs.to_networkx).nodes.map Prod.fst).foldlM
        (process_lhs_node (req.graph_rhs.to_networkx) (norm_ids req.mapping_rhs_to_lhs)
          (norm_ids req.mapping_lhs_to_input)
          (build_lhs_to_rhs (norm_ids req.mapping_rhs_to_lhs)))
        ⟨req.graph_input.to_networkx, max_input_id (req.graph_input.to_networkx) + 1, [], []⟩
        = .ok st1 ∧
      st = { st1 with
        G_in := ((node_link_edges (req.graph_lhs.to_networkx)).foldl
          (edge_pass_step (req.graph_rhs.to_networkx) (norm_ids req.mapping_lhs_to_input)
            (build_lhs_to_rhs (norm_ids req.mapping_rhs_to_lhs))) st1.G_in) } := by
  unfold calculateT at h
  obtain ⟨u, hu, h⟩ := except_bind_ok h
  obtain ⟨st1, hst1, h⟩ := except_bind_ok h
  rw [Except.ok.injEq] at h
  exact ⟨st1, hst1, h.symm⟩

end SPO

namespace SPO

theorem edgeMatches_symm (u v : NodeId) (e : NodeId × NodeId) :
    edgeMatches u v e = edgeMatches v u e := by
  unfold edgeMatches
  rw [Bool.or_comm]

theorem hasEdge_symm (g : PyGraph) (u v : NodeId) : g.hasEdge u v = g.hasEdge v u := by
  unfold PyGraph.hasEdge
  congr 1
  funext e
  exact edgeMatches_symm u v e

theorem hasEdge_false_iff (g : PyGraph) (u v : NodeId) :
    g.hasEdge u v = false ↔ cntEdges g u v = 0 := by
  unfold PyGraph.hasEdge cntEdges
  rw [List.any_eq_false, List.countP_eq_zero]

theorem hasEdge_cnt_pos (g : PyGraph) (u v : NodeId) (h : g.hasEdge u v = true) :
    0 < cntEdges g u v := by
  unfold PyGraph.hasEdge at h
  unfold cntEdges
  rw [List.countP_pos_iff]
  exact List.any_eq_true.mp h

theorem edgeMatches_trans {u v n m : NodeId} {e : NodeId × NodeId}
    (h1 : edgeMatches u v (n, m) = true) (h2 : edgeMatches n m e = true) :
    edgeMatches u v e = true := by
  unfold edgeMatches at h1 h2 ⊢
  simp only [Bool.or_eq_true, Bool.and_eq_true, decide_eq_true_iff] at h1 h2 ⊢
  obtain ⟨h1a, h1b⟩ | ⟨h1a, h1b⟩ := h1 <;>
    obtain ⟨h2a, h2b⟩ | ⟨h2a, h2b⟩ := h2 <;>
    subst h1a <;> subst h1b <;>
    first
      | exact Or.inl ⟨h2a, h2b⟩
      | exact Or.inr ⟨h2a, h2b⟩

theorem cnt_addNode (g : PyGraph) (v : NodeId) (a : Attrs) (u w : NodeId) :
    cntEdges (g.addNode v a) u w = cntEdges g u w := by
  unfold cntEdges
  rw [edges_addNode]

theorem cnt_ensure_le_one (g : PyGraph) (a b u v : NodeId) (h : cntEdges g u v ≤ 1) :
    cntEdges (ensure_edge g a b).1 u v ≤ 1 := by
  unfold ensure_edge
  by_cases hc : (!(g.hasEdge a b) && !(g.hasEdge b a)) = true
  · rw [if_pos hc]
    show cntEdges (g.add_edge a b) u v ≤ 1
    unfold cntEdges
    rw [edges_add_edge, List.countP_append]
    rw [Bool.and_eq_true, Bool.not_eq_true', Bool.not_eq_true'] at hc
    obtain ⟨hc1, hc2⟩ := hc
    by_cases hm : edgeMatches u v (a, b) = true
    · have hz : List.countP (edgeMatches u v) g.edges = 0 := by
        rw [List.countP_eq_zero]
        intro e he hme
        have hab : edgeMatches a b e = true := by
          unfold edgeMatches at hm hme ⊢
          simp only [Bool.or_eq_true, Bool.and_eq_true, decide_eq_true_iff] at hm hme ⊢
          obtain ⟨hma, hmb⟩ | ⟨hma, hmb⟩ := hm <;> subst hma <;> subst hmb <;>
            tauto
        have : g.hasEdge a b = true := by
          unfold PyGraph.hasEdge
          rw [List.any_eq_true]
          exact ⟨e, he, hab⟩
        rw [this] at hc1
        cases hc1
      rw [hz, List.countP_singleton, if_pos hm]
    · rw [Bool.not_eq_true] at hm
      rw [List.countP_singleton, hm]
      simpa using h
  · rw [if_neg hc]
    exact h

theorem cnt_remove_node_le (g : PyGraph) (v u w : NodeId) :
    cntEdges (g.remove_node v) u w ≤ cntEdges g u w :=
  (List.filter_sublist g.edges).countP_le _

theorem cnt_remove_edge_le (g : PyGraph) (a b u w : NodeId) :
    cntEdges (g.remove_edge a b) u w ≤ cntEdges g u w :=
  (edges_remove_edge_sublist g a b).countP_le _

theorem countP_eraseFirstP (p : NodeId × NodeId → Bool) :
    ∀ l : List (NodeId × NodeId), l.any p = true →
    (eraseFirstP p l).countP p = l.countP p - 1 := by
  intro l
  induction l with
  | nil => intro h; simp at h
  | cons e rest ih =>
    intro h
    unfold eraseFirstP
    by_cases hp : p e = true
    · rw [if_pos hp, List.countP_cons_of_pos _ _ hp]
      simp
    · rw [if_neg hp]
      have hr : rest.any p = true := by
        rcases List.any_eq_true.mp h with ⟨x, hx, hpx⟩
        rcases List.mem_cons.mp hx with rfl | hx2
        · exact absurd hpx hp
        · exact List.any_eq_true.mpr ⟨x, hx2, hpx⟩
      rw [List.countP_cons_of_neg _ _ hp, List.countP_cons_of_neg _ _ hp, ih hr]

theorem cnt_remove_edge_self (g : PyGraph) (u v : NodeId) (h : g.hasEdge u v = true) :
    cntEdges (g.remove_edge u v) u v = cntEdges g u v - 1 := by
  show ((eraseFirstP (edgeMatches u v) g.edges.reverse).reverse).countP (edgeMatches u v)
    = g.edges.countP (edgeMatches u v) - 1
  rw [List.countP_reverse, countP_eraseFirstP, List.countP_reverse]
  rcases List.any_eq_true.mp h with ⟨e, he, hpe⟩
  exact List.any_eq_true.mpr ⟨e, List.mem_reverse.mpr he, hpe⟩

theorem edge_pass_step_edges_sublist (G_rhs : PyGraph)
    (lhs_to_input : List (NodeId × NodeId)) (lhs_to_rhs : List (NodeId × List NodeId))
    (g : PyGraph) (e : NodeId × NodeId) :
    List.Sublist (edge_pass_step G_rhs lhs_to_input lhs_to_rhs g e).edges g.edges := by
  unfold edge_pass_step
  split
  · by_cases h0 : ((dgetL lhs_to_rhs e.1).any fun ru => (dgetL lhs_to_rhs e.2).any
        fun rv => G_rhs.hasEdge ru rv) = true
    · simp only [h0, if_true]
      exact List.Sublist.refl _
    · rw [Bool.not_eq_true] at h0
      simp only [h0, Bool.false_eq_true, if_false]
      split_ifs with ha hb
      · exact edges_remove_edge_sublist _ _ _
      · exact edges_remove_edge_sublist _ _ _
      · exact List.Sublist.refl _
  · exact List.Sublist.refl _

theorem cnt_edge_pass_step_le (G_rhs : PyGraph)
    (lhs_to_input : List (NodeId × NodeId)) (lhs_to_rhs : List (NodeId × List NodeId))
    (g : PyGraph) (e : NodeId × NodeId) (u v : NodeId) :
    cntEdges (edge_pass_step G_rhs lhs_to_input lhs_to_rhs g e) u v ≤ cntEdges g u v :=
  (edge_pass_step_edges_sublist G_rhs lhs_to_input lhs_to_rhs g e).countP_le _

theorem edge_pass_step_kills (G_rhs : PyGraph)
    (lhs_to_input : List (NodeId × NodeId)) (lhs_to_rhs : List (NodeId × List NodeId))
    (g : PyGraph) (lu lv in_u in_v : NodeId)
    (hu : dget lhs_to_input lu = some in_u) (hv : dget lhs_to_input lv = some in_v)
    (hno : (dgetL lhs_to_rhs lu).any (fun ru => (dgetL lhs_to_rhs lv).any
      (fun rv => G_rhs.hasEdge ru rv)) = false)
    (hcnt : cntEdges g in_u in_v ≤ 1) :
    cntEdges (edge_pass_step G_rhs lhs_to_input lhs_to_rhs g (lu, lv)) in_u in_v = 0 := by
  unfold edge_pass_step
  simp only [hu, hv, hno, Bool.false_eq_true, if_false]
  by_cases h1 : g.hasEdge in_u in_v = true
  · rw [if_pos h1, cnt_remove_edge_self g in_u in_v h1]
    have := hasEdge_cnt_pos g in_u in_v h1
    omega
  · rw [Bool.not_eq_true] at h1
    rw [if_neg (by rw [h1]; exact Bool.false_ne_true)]
    rw [hasEdge_symm g in_v in_u, if_neg (by rw [h1]; exact Bool.false_ne_true)]
    exact (hasEdge_false_iff g in_u in_v).mp h1

theorem edge_pass_fold_kills (G_rhs : PyGraph)
    (lhs_to_input : List (NodeId × NodeId)) (lhs_to_rhs : List (NodeId × List NodeId))
    (es : List (NodeId × NodeId)) (g : PyGraph) (lu lv in_u in_v : NodeId)
    (hmem : (lu, lv) ∈ es)
    (hu : dget lhs_to_input lu = some in_u) (hv : dget lhs_to_input lv = some in_v)
    (hno : (dgetL lhs_to_rhs lu).any (fun ru => (dgetL lhs_to_rhs lv).any
      (fun rv => G_rhs.hasEdge ru rv)) = false)
    (hcnt : cntEdges g in_u in_v ≤ 1) :
    cntEdges (es.foldl (edge_pass_step G_rhs lhs_to_input lhs_to_rhs) g) in_u in_v = 0 := by
  obtain ⟨s, t, rfl⟩ := List.append_of_mem hmem
  rw [List.foldl_append, List.foldl_cons]
  have h1 : cntEdges (s.foldl (edge_pass_step G_rhs lhs_to_input lhs_to_rhs) g) in_u in_v ≤ 1 := by
    refine foldl_inv (fun gg => cntEdges gg in_u in_v ≤ 1) _ ?_ _ _ hcnt
    intro b a hb
    exact le_trans (cnt_edge_pass_step_le _ _ _ _ _ _ _) hb
  have h2 := edge_pass_step_kills G_rhs lhs_to_input lhs_to_rhs _ lu lv in_u in_v hu hv hno h1
  refine foldl_inv (fun gg => cntEdges gg in_u in_v = 0) _ ?_ _ _ h2
  intro b a hb
  have := cnt_edge_pass_step_le G_rhs lhs_to_input lhs_to_rhs b a in_u in_v
  omega

theorem mem_node_link_edges_aux (g : PyGraph) :
    ∀ (ids seen : List NodeId) (pr : NodeId × NodeId),
    pr ∈ node_link_edges_aux g seen ids → ∃ e ∈ g.edges, edgeMatches pr.1 pr.2 e = true := by
  intro ids
  induction ids with
  | nil =>
    intro seen pr h
    simp [node_link_edges_aux] at h
  | cons n rest ih =>
    intro seen pr h
    unfold node_link_edges_aux at h
    rw [List.mem_append] at h
    rcases h with h | h
    · rw [List.mem_flatten] at h
      obtain ⟨lst, hlst, hpr⟩ := h
      rw [List.mem_map] at hlst
      obtain ⟨m, hm, rfl⟩ := hlst
      rw [List.mem_map] at hpr
      obtain ⟨c, hc, rfl⟩ := hpr
      unfold copiesBetween at hc
      rw [List.mem_filter] at hc
      exact ⟨c, hc.1, hc.2⟩
    · exact ih _ _ h

theorem mem_node_link_edges (g : PyGraph) (pr : NodeId × NodeId)
    (h : pr ∈ node_link_edges g) : ∃ e ∈ g.edges, edgeMatches pr.1 pr.2 e = true :=
  mem_node_link_edges_aux g _ _ pr h

end SPO

namespace SPO

/-- C2 amended: the removal direction of the claim holds: for an LHS
edge (lu, lv) whose endpoints are both matched, when NO corresponding
RHS pair has an edge and the input graph holds at most one parallel
copy of the matched edge, that edge is absent from the final graph and
from the serialized output.  The converse direction of the original
iff is false (see the counterexample): presence is not guaranteed when
an RHS pair edge exists. -/
theorem C2_edge_removal_amended (req : CalculateRequest) (st : RState)
    (lu lv in_u in_v : NodeId)
    (hok : calculateT req = .ok st)
    (hmem : (lu, lv) ∈ node_link_edges req.graph_lhs.to_networkx)
    (hu : dget (norm_ids req.mapping_lhs_to_input) lu = some in_u)
    (hv : dget (norm_ids req.mapping_lhs_to_input) lv = some in_v)
    (hno : (dgetL (build_lhs_to_rhs (norm_ids req.mapping_rhs_to_lhs)) lu).any
        (fun ru => (dgetL (build_lhs_to_rhs (norm_ids req.mapping_rhs_to_lhs)) lv).any
          (fun rv => (req.graph_rhs.to_networkx).hasEdge ru rv)) = false)
    (hcnt : cntEdges (req.graph_input.to_networkx) in_u in_v ≤ 1) :
    st.G_in.hasEdge in_u in_v = false ∧
    (node_link_data st.G_in req.graph_input.graph).links.all
      (fun lk => !(edgeMatches in_u in_v (lk.source, lk.target))) = true := by
  obtain ⟨st1, hmain, hst⟩ := calculateT_ok_inv hok
  have hQ1 : cntEdges st1.G_in in_u in_v ≤ 1 := by
    refine foldlME_inv (fun s => cntEdges s.G_in in_u in_v ≤ 1) _ ?_ _ _ _ hcnt hmain
    intro b a b' hb hf
    refine process_lhs_node_graphQ (fun gg => cntEdges gg in_u in_v ≤ 1) ?_ ?_ ?_ hf hb
    · intro g v a2 hg
      rw [cnt_addNode]
      exact hg
    · intro g u2 v2 hg
      exact cnt_ensure_le_one _ _ _ _ _ hg
    · intro g v2 hg
      exact le_trans (cnt_remove_node_le _ _ _ _) hg
  have hz : cntEdges st.G_in in_u in_v = 0 := by
    rw [hst]
    exact edge_pass_fold_kills _ _ _ _ _ lu lv in_u in_v hmem hu hv hno hQ1
  refine ⟨(hasEdge_false_iff _ _ _).mpr hz, ?_⟩
  rw [List.all_eq_true]
  intro lk hlk
  have hlk2 : lk ∈ (node_link_edges st.G_in).map
      (fun e => Link.mk e.1 e.2) := hlk
  rw [List.mem_map] at hlk2
  obtain ⟨pr, hpr, hlke⟩ := hlk2
  rw [← hlke]
  show (!(edgeMatches in_u in_v (pr.1, pr.2))) = true
  rw [Bool.not_eq_true']
  cases hcb : edgeMatches in_u in_v (pr.1, pr.2) with
  | false => rfl
  | true =>
    exfalso
    obtain ⟨e, he, hme⟩ := mem_node_link_edges st.G_in pr hpr
    have hmt : edgeMatches in_u in_v e = true :=
      edgeMatches_trans (by rw [Prod.mk.eta] at hcb; exact hcb) hme
    have hpos : 0 < cntEdges st.G_in in_u in_v := by
      rw [cntEdges, List.countP_pos_iff]
      exact ⟨e, he, hmt⟩
    omega

/-- C2 amended, witness: on reqEdel the LHS edge (10,11) has no RHS
pair edge; the input edge (1,2) is indeed absent from the final state
and from the output. -/
theorem C2_edge_removal_witness :
    (⟨⟨[(.i 1, ⟨some (some 0), some (some 0)⟩)], []⟩, 3, [], []⟩ : RState).G_in.hasEdge
      (.i 1) (.i 2) = false ∧
    (node_link_data (⟨⟨[(.i 1, ⟨some (some 0), some (some 0)⟩)], []⟩, 3, [], []⟩
      : RState).G_in reqEdel.graph_input.graph).links.all
      (fun lk => !(edgeMatches (.i 1) (.i 2) (lk.source, lk.target))) = true :=
  C2_edge_removal_amended reqEdel _ (.i 10) (.i 11) (.i 1) (.i 2)
    (by rfl) (by decide) (by rfl) (by rfl) (by rfl) (by decide)

end SPO

namespace SPO

/-!
Preservation of predicates that ignore the working graph (stable under
any replacement of the G_in field) and are preserved by
create_rhs_only_node: everything else in the pipeline only touches
G_in.
-/

theorem process_neighbor_stateQ (P : RState → Prop)
    (hG : ∀ st g, P st → P { st with G_in := g })
    (hcr : ∀ (G_rhs : PyGraph) (a b c : Option NodeId) (st : RState) (nid : NodeId)
      (st' : RState), create_rhs_only_node G_rhs a b c st = .ok (nid, st') → P st → P st')
    {G_rhs : PyGraph} {rhs_to_lhs lhs_to_input : List (NodeId × NodeId)}
    {visited : List NodeId} {rhs_cur input_cur : NodeId}
    {acc : List (NodeId × NodeId) × RState} {rhs_nbr : NodeId}
    {out : List (NodeId × NodeId) × RState}
    (h : process_neighbor G_rhs rhs_to_lhs lhs_to_input visited rhs_cur input_cur acc rhs_nbr
      = .ok out)
    (hP : P acc.2) : P out.2 := by
  unfold process_neighbor at h
  cases hg : dget rhs_to_lhs rhs_nbr with
  | none =>
    simp only [hg] at h
    obtain ⟨res, hres, h⟩ := except_bind_ok h
    rw [Except.ok.injEq] at h
    rw [← h]
    exact hG _ _ (hcr _ _ _ _ _ _ _ (by rw [← Prod.mk.eta (p := res)] at hres; exact hres) hP)
  | some lhs_nbr =>
    simp only [hg] at h
    cases hi : dget lhs_to_input lhs_nbr with
    | none =>
      simp only [hi, Except.ok.injEq] at h
      rw [← h]
      exact hP
    | some input_nbr =>
      simp only [hi, Except.ok.injEq] at h
      rw [← h]
      exact hG _ _ hP

theorem bfs_stateQ (P : RState → Prop)
    (hG : ∀ st g, P st → P { st with G_in := g })
    (hcr : ∀ (G_rhs : PyGraph) (a b c : Option NodeId) (st : RState) (nid : NodeId)
      (st' : RState), create_rhs_only_node G_rhs a b c st = .ok (nid, st') → P st → P st')
    {G_rhs : PyGraph} {rhs_to_lhs lhs_to_input : List (NodeId × NodeId)} :
    ∀ (fuel : Nat) (queue : List (NodeId × NodeId)) (visited : List NodeId)
      (st : RState) (out : List NodeId × RState),
    bfs_loop G_rhs rhs_to_lhs lhs_to_input fuel queue visited st = .ok out →
    P st → P out.2 := by
  intro fuel
  induction fuel with
  | zero =>
    intro queue visited st out h
    exact absurd h (by simp [bfs_loop])
  | succ fuel ih =>
    intro queue visited st out h hP
    cases queue with
    | nil =>
      rw [bfs_loop] at h
      cases h
      exact hP
    | cons q rest =>
      obtain ⟨rhs_cur, input_cur⟩ := q
      rw [bfs_loop] at h
      by_cases hv : rhs_cur ∈ visited
      · rw [if_pos hv] at h
        exact ih _ _ _ _ h hP
      · rw [if_neg hv] at h
        obtain ⟨o1, ho1, h⟩ := except_bind_ok h
        refine ih _ _ _ _ h ?_
        refine foldlME_inv (fun acc => P acc.2) _ ?_ _ _ _ hP ho1
        intro b a b' hb hf
        exact process_neighbor_stateQ P hG hcr hf hb

theorem orphan_scan_stateQ (P : RState → Prop)
    (hcr : ∀ (G_rhs : PyGraph) (a b c : Option NodeId) (st : RState) (nid : NodeId)
      (st' : RState), create_rhs_only_node G_rhs a b c st = .ok (nid, st') → P st → P st')
    {G_rhs : PyGraph} {lhs_to_rhs : List (NodeId × List NodeId)}
    {visited : List NodeId} {st st' : RState}
    (h : orphan_scan G_rhs lhs_to_rhs visited st = .ok st')
    (hP : P st) : P st' := by
  refine foldlME_inv P _ ?_ _ _ _ hP h
  intro b a b' hb hf
  by_cases hc : (!(decide (a ∈ visited)) && !(dhasKeyL lhs_to_rhs a)) = true
  · rw [if_pos hc] at hf
    obtain ⟨res, hres, hf⟩ := except_bind_ok hf
    rw [Except.ok.injEq] at hf
    rw [← hf]
    exact hcr _ _ _ _ _ _ _ (by rw [← Prod.mk.eta (p := res)] at hres; exact hres) hb
  · rw [if_neg hc] at hf
    rw [Except.ok.injEq] at hf
    rw [← hf]
    exact hb

theorem process_rhs_start_stateQ (P : RState → Prop)
    (hG : ∀ st g, P st → P { st with G_in := g })
    (hcr : ∀ (G_rhs : PyGraph) (a b c : Option NodeId) (st : RState) (nid : NodeId)
      (st' : RState), create_rhs_only_node G_rhs a b c st = .ok (nid, st') → P st → P st')
    {G_rhs : PyGraph} {rhs_to_lhs lhs_to_input : List (NodeId × NodeId)}
    {lhs_to_rhs : List (NodeId × List NodeId)} {input_id : NodeId}
    {st : RState} {rhs_start : NodeId} {st' : RState}
    (h : process_rhs_start G_rhs rhs_to_lhs lhs_to_input lhs_to_rhs input_id st rhs_start
      = .ok st')
    (hP : P st) : P st' := by
  unfold process_rhs_start at h
  by_cases hn : (!(G_rhs.hasNode rhs_start)) = true
  · rw [if_pos hn] at h
    rw [Except.ok.injEq] at h
    rw [← h]
    exact hP
  · rw [if_neg hn] at h
    obtain ⟨o1, ho1, h⟩ := except_bind_ok h
    exact orphan_scan_stateQ P hcr h (bfs_stateQ P hG hcr _ _ _ _ _ ho1 hP)

theorem process_lhs_node_stateQ (P : RState → Prop)
    (hG : ∀ st g, P st → P { st with G_in := g })
    (hcr : ∀ (G_rhs : PyGraph) (a b c : Option NodeId) (st : RState) (nid : NodeId)
      (st' : RState), create_rhs_only_node G_rhs a b c st = .ok (nid, st') → P st → P st')
    {G_rhs : PyGraph} {rhs_to_lhs lhs_to_input : List (NodeId × NodeId)}
    {lhs_to_rhs : List (NodeId × List NodeId)}
    {st : RState} {lhs_id : NodeId} {st' : RState}
    (h : process_lhs_node G_rhs rhs_to_lhs lhs_to_input lhs_to_rhs st lhs_id = .ok st')
    (hP : P st) : P st' := by
  unfold process_lhs_node at h
  cases hi : dget lhs_to_input lhs_id with
  | none =>
    simp only [hi, Except.ok.injEq] at h
    rw [← h]
    exact hP
  | some input_id =>
    simp only [hi] at h
    cases hl : dgetL lhs_to_rhs lhs_id with
    | nil =>
      simp only [hl] at h
      by_cases hn : (st.G_in.hasNode input_id) = true
      · rw [if_pos hn] at h
        rw [Except.ok.injEq] at h
        rw [← h]
        exact hG _ _ hP
      · rw [if_neg hn] at h
        rw [Except.ok.injEq] at h
        rw [← h]
        exact hP
    | cons r rs =>
      simp only [hl] at h
      refine foldlME_inv P _ ?_ _ _ _ hP h
      intro b a b' hb hf
      exact process_rhs_start_stateQ P hG hcr hf hb

/-- create_rhs_only_node preserves the allocator invariant. -/
theorem alloc_create {start : Int} {G_rhs : PyGraph} {a b c : Option NodeId}
    {st : RState} {nid : NodeId} {st' : RState}
    (h : create_rhs_only_node G_rhs a b c st = .ok (nid, st'))
    (hI : AllocInv start st) : AllocInv start st' := by
  obtain ⟨h1, h2, h3, h4⟩ := hI
  rcases create_shape h with ⟨k, _, _, rfl⟩ | ⟨hnid, hnext, hcreated, hmemo, a2, hG⟩
  · exact ⟨h1, h2, h3, h4⟩
  · refine ⟨?_, ?_, ?_, ?_⟩
    · rw [hnext]
      omega
    · rw [hcreated, hnext]
      intro cc hc
      rw [List.mem_append] at hc
      rcases hc with hc | hc
      · have := h2 cc hc
        omega
      · rw [List.mem_singleton] at hc
        subst hc
        omega
    · rw [hcreated, List.chain'_append]
      refine ⟨h3, List.chain'_singleton _, ?_⟩
      intro x hx y hy
      rw [List.head?_cons, Option.mem_some_iff] at hy
      subst hy
      obtain ⟨hne, hxl⟩ := List.mem_getLast?_eq_getLast hx
      have hxm : x ∈ st.created_ids := by
        rw [hxl]
        exact List.getLast_mem hne
      have := h2 x hxm
      omega
    · intro p hp
      rw [hnext]
      rcases hmemo with hm | hm
      · rw [hm] at hp
        have := h4 p hp
        omega
      · rw [hm, List.mem_append] at hp
        rcases hp with hp | hp
        · have := h4 p hp
          omega
        · rw [List.mem_singleton] at hp
          subst hp
          omega

theorem alloc_main_fold {start : Int}
    {G_rhs : PyGraph} {rhs_to_lhs lhs_to_input : List (NodeId × NodeId)}
    {lhs_to_rhs : List (NodeId × List NodeId)}
    {ids : List NodeId} {st0 st1 : RState}
    (h : ids.foldlM (process_lhs_node G_rhs rhs_to_lhs lhs_to_input lhs_to_rhs) st0 = .ok st1)
    (hI : AllocInv start st0) : AllocInv start st1 := by
  refine foldlME_inv (AllocInv start) _ ?_ _ _ _ hI h
  intro b a b' hb hf
  refine process_lhs_node_stateQ (AllocInv start) ?_ ?_ hf hb
  · intro st g hP
    exact hP
  · intro G2 a2 b2 c2 st nid st' hcr hP
    exact alloc_create hcr hP

end SPO

namespace SPO

theorem foldl_max_init_le : ∀ (xs : List Int) (x : Int), x ≤ xs.foldl max x := by
  intro xs
  induction xs with
  | nil => intro x; simp
  | cons y ys ih =>
    intro x
    rw [List.foldl_cons]
    exact le_trans (le_max_left x y) (ih (max x y))

theorem foldl_max_mem_le : ∀ (xs : List Int) (x a : Int), a ∈ xs → a ≤ xs.foldl max x := by
  intro xs
  induction xs with
  | nil => intro x a h; simp at h
  | cons y ys ih =>
    intro x a h
    rw [List.foldl_cons]
    rcases List.mem_cons.mp h with rfl | h2
    · exact le_trans (le_max_right x a) (foldl_max_init_le ys (max x a))
    · exact ih (max x y) a h2

theorem le_max_int_list {l : List Int} {a : Int} (h : a ∈ l) : a ≤ max_int_list l := by
  cases l with
  | nil => simp at h
  | cons x xs =>
    show a ≤ xs.foldl max x
    rcases List.mem_cons.mp h with rfl | h2
    · exact foldl_max_init_le xs a
    · exact foldl_max_mem_le xs x a h2

theorem max_input_id_ge (g : PyGraph)
    (hall : (g.nodes.map Prod.fst).all (fun n => (int_of_node_id n).isSome) = true)
    {nid : NodeId} (hmem : nid ∈ g.nodes.map Prod.fst) {v : Int}
    (hv : int_of_node_id nid = some v) : v ≤ max_input_id g := by
  unfold max_input_id
  have hne : (g.nodes.map Prod.fst).isEmpty ≠ true := by
    intro hcon
    rw [List.isEmpty_iff] at hcon
    rw [hcon] at hmem
    simp at hmem
  rw [if_neg hne, if_pos hall]
  exact le_max_int_list (List.mem_filterMap.mpr ⟨nid, hmem, hv⟩)

theorem max_plus_one_eq_spec (g : PyGraph)
    (hall : (g.nodes.map Prod.fst).all (fun n => (int_of_node_id n).isSome) = true) :
    max_input_id g + 1 = spec_init_next_id g := by
  unfold max_input_id spec_init_next_id
  cases hl : g.nodes.map Prod.fst with
  | nil => rfl
  | cons x xs =>
    rw [hl] at hall
    have hne : (x :: xs).isEmpty ≠ true := by simp
    rw [if_neg hne, if_pos hall]
    have hx : (int_of_node_id x).isSome = true :=
      List.all_eq_true.mp hall x (List.mem_cons_self x xs)
    obtain ⟨v, hv⟩ := Option.isSome_iff_exists.mp hx
    rw [List.filterMap_cons_some hv]
    rfl

theorem chain'_lt_all_distinct : ∀ l : List Int, l.Chain' (· < ·) → all_distinct l = true := by
  intro l
  induction l with
  | nil => intro _; rfl
  | cons x xs ih =>
    intro h
    rw [List.chain'_iff_pairwise, List.pairwise_cons] at h
    obtain ⟨hx, hxs⟩ := h
    show (!(xs.contains x) && all_distinct xs) = true
    rw [Bool.and_eq_true]
    refine ⟨?_, ih (List.chain'_iff_pairwise.mpr hxs)⟩
    cases hc : xs.contains x with
    | false => rfl
    | true =>
      exfalso
      have hmem : x ∈ xs := List.mem_of_elem_eq_true hc
      exact lt_irrefl x (hx x hmem)

/-- C5 amended: when every pre-existing input id parses as an integer
(including the empty-graph case), the counter starts at
max(parsed) + 1 exactly as the spec-modelled allocator prescribes, and
every id allocated during the run is strictly greater than the maximum
pre-existing id, distinct from every pre-existing id, and distinct
from every other allocated id.  When some id fails to parse the
counter falls back to 1 and all three guarantees can fail (see the
counterexample). -/
theorem C5_allocator_amended (req : CalculateRequest) (st : RState)
    (hall : ((req.graph_input.to_networkx).nodes.map Prod.fst).all
      (fun n => (int_of_node_id n).isSome) = true)
    (hok : calculateT req = .ok st) :
    all_distinct st.created_ids = true ∧
    all_gt (max_input_id (req.graph_input.to_networkx)) st.created_ids = true ∧
    fresh_vs_ids st.created_ids ((req.graph_input.to_networkx).nodes.map Prod.fst) = true ∧
    max_input_id (req.graph_input.to_networkx) + 1 =
      spec_init_next_id (req.graph_input.to_networkx) := by
  obtain ⟨st1, hmain, hst⟩ := calculateT_ok_inv hok
  have hI0 : AllocInv (max_input_id (req.graph_input.to_networkx) + 1)
      ⟨req.graph_input.to_networkx, max_input_id (req.graph_input.to_networkx) + 1, [], []⟩ := by
    refine ⟨le_refl _, ?_, List.chain'_nil, ?_⟩
    · intro c hc
      simp at hc
    · intro p hp
      simp at hp
  have hI1 : AllocInv (max_input_id (req.graph_input.to_networkx) + 1) st1 :=
    alloc_main_fold hmain hI0
  have hI : AllocInv (max_input_id (req.graph_input.to_networkx) + 1) st := by
    rw [hst]
    exact hI1
  obtain ⟨h1, h2, h3, h4⟩ := hI
  refine ⟨chain'_lt_all_distinct _ h3, ?_, ?_, max_plus_one_eq_spec _ hall⟩
  · rw [all_gt, List.all_eq_true]
    intro c hc
    rw [decide_eq_true_iff]
    have := (h2 c hc).1
    omega
  · rw [fresh_vs_ids, List.all_eq_true]
    intro c hc
    rw [List.all_eq_true]
    intro nid hnid
    rw [decide_eq_true_iff]
    intro heq
    have hS := List.all_eq_true.mp hall nid hnid
    obtain ⟨v, hv⟩ := Option.isSome_iff_exists.mp hS
    have hle := max_input_id_ge _ hall hnid hv
    have hc2 := (h2 c hc).1
    rw [← heq] at hv
    have hcv : c = v := by
      have : int_of_node_id (NodeId.i c) = some c := rfl
      rw [this] at hv
      exact Option.some.injEq _ _ ▸ hv.symm ▸ rfl
    omega

/-- C5 amended, witness: on req1 (all input ids integral) the single
allocation is id 2, strictly above the pre-existing maximum 1, distinct
from the input id, and the counter start 2 matches the spec allocator. -/
theorem C5_allocator_witness :
    all_distinct (⟨⟨[(.i 1, ⟨some (some 1), some (some 0)⟩),
        (.i 2, ⟨some (some 7), some (some 0)⟩)], [(.i 1, .i 2)]⟩,
        3, [(some (.i 21), 2)], [2]⟩ : RState).created_ids = true ∧
    all_gt (max_input_id (req1.graph_input.to_networkx))
      (⟨⟨[(.i 1, ⟨some (some 1), some (some 0)⟩),
        (.i 2, ⟨some (some 7), some (some 0)⟩)], [(.i 1, .i 2)]⟩,
        3, [(some (.i 21), 2)], [2]⟩ : RState).created_ids = true ∧
    fresh_vs_ids (⟨⟨[(.i 1, ⟨some (some 1), some (some 0)⟩),
        (.i 2, ⟨some (some 7), some (some 0)⟩)], [(.i 1, .i 2)]⟩,
        3, [(some (.i 21), 2)], [2]⟩ : RState).created_ids
      ((req1.graph_input.to_networkx).nodes.map Prod.fst) = true ∧
    max_input_id (req1.graph_input.to_networkx) + 1 =
      spec_init_next_id (req1.graph_input.to_networkx) :=
  C5_allocator_amended req1 _ (by rfl) (by rfl)

end SPO

namespace SPO

theorem no_touch_iff (g : PyGraph) (X : NodeId) :
    no_touch g X = true ↔
    ((∀ p ∈ g.nodes, p.1 ≠ X) ∧ (∀ e ∈ g.edges, e.1 ≠ X ∧ e.2 ≠ X)) := by
  unfold no_touch
  rw [Bool.and_eq_true, List.all_eq_true, List.all_eq_true]
  constructor
  · rintro ⟨h1, h2⟩
    refine ⟨fun p hp => ?_, fun e he => ?_⟩
    · have := h1 p hp
      rwa [decide_eq_true_iff] at this
    · have := h2 e he
      rw [Bool.and_eq_true, decide_eq_true_iff, decide_eq_true_iff] at this
      exact this
  · rintro ⟨h1, h2⟩
    refine ⟨fun p hp => ?_, fun e he => ?_⟩
    · rw [decide_eq_true_iff]
      exact h1 p hp
    · rw [Bool.and_eq_true, decide_eq_true_iff, decide_eq_true_iff]
      exact h2 e he

theorem fst_update_eq (v : NodeId) (a : Attrs) (p : NodeId × Attrs) :
    (if p.1 = v then (p.1, a) else p).1 = p.1 := by
  split <;> rfl

theorem no_touch_addNode {g : PyGraph} {X v : NodeId} (a : Attrs) (hv : v ≠ X)
    (h : no_touch g X = true) : no_touch (g.addNode v a) X = true := by
  rw [no_touch_iff] at h ⊢
  obtain ⟨h1, h2⟩ := h
  refine ⟨?_, ?_⟩
  · intro p hp
    unfold PyGraph.addNode at hp
    by_cases hn : g.hasNode v = true
    · rw [if_pos hn] at hp
      obtain ⟨q, hq, rfl⟩ := List.mem_map.mp hp
      rw [fst_update_eq]
      exact h1 q hq
    · rw [if_neg hn] at hp
      rcases List.mem_append.mp hp with hp | hp
      · exact h1 p hp
      · rw [List.mem_singleton] at hp
        subst hp
        exact hv
  · intro e he
    rw [edges_addNode] at he
    exact h2 e he

theorem nodes_addNodeIfAbsent_mem {g : PyGraph} {v : NodeId} {p : NodeId × Attrs}
    (hp : p ∈ (g.addNodeIfAbsent v).nodes) : p ∈ g.nodes ∨ p = (v, emptyAttrs) := by
  unfold PyGraph.addNodeIfAbsent at hp
  split at hp
  · exact Or.inl hp
  · rcases List.mem_append.mp hp with hp | hp
    · exact Or.inl hp
    · rw [List.mem_singleton] at hp
      exact Or.inr hp

theorem no_touch_add_edge {g : PyGraph} {X u v : NodeId} (hu : u ≠ X) (hv : v ≠ X)
    (h : no_touch g X = true) : no_touch (g.add_edge u v) X = true := by
  rw [no_touch_iff] at h ⊢
  obtain ⟨h1, h2⟩ := h
  refine ⟨?_, ?_⟩
  · intro p hp
    have hp2 : p ∈ ((g.addNodeIfAbsent u).addNodeIfAbsent v).nodes := hp
    rcases nodes_addNodeIfAbsent_mem hp2 with hp3 | hp3
    · rcases nodes_addNodeIfAbsent_mem hp3 with hp4 | hp4
      · exact h1 p hp4
      · rw [hp4]
        exact hu
    · rw [hp3]
      exact hv
  · intro e he
    rw [edges_add_edge] at he
    rcases List.mem_append.mp he with he | he
    · exact h2 e he
    · rw [List.mem_singleton] at he
      subst he
      exact ⟨hu, hv⟩

theorem no_touch_ensure {g : PyGraph} {X u v : NodeId} (hu : u ≠ X) (hv : v ≠ X)
    (h : no_touch g X = true) : no_touch (ensure_edge g u v).1 X = true := by
  unfold ensure_edge
  by_cases hc : (!(g.hasEdge u v) && !(g.hasEdge v u)) = true
  · rw [if_pos hc]
    exact no_touch_add_edge hu hv h
  · rw [if_neg hc]
    exact h

theorem no_touch_eq_sub {g g' : PyGraph} {X : NodeId}
    (hn : g'.nodes = g.nodes) (he : List.Sublist g'.edges g.edges)
    (h : no_touch g X = true) : no_touch g' X = true := by
  rw [no_touch_iff] at h ⊢
  obtain ⟨h1, h2⟩ := h
  exact ⟨fun p hp => h1 p (hn ▸ hp), fun e hee => h2 e (he.mem hee)⟩

theorem no_touch_remove_node {g : PyGraph} {X v : NodeId}
    (h : no_touch g X = true) : no_touch (g.remove_node v) X = true := by
  rw [no_touch_iff] at h ⊢
  obtain ⟨h1, h2⟩ := h
  refine ⟨fun p hp => ?_, fun e he => ?_⟩
  · exact h1 p (List.mem_filter.mp hp).1
  · exact h2 e (List.mem_filter.mp he).1

theorem no_touch_remove_node_self (g : PyGraph) (X : NodeId) :
    no_touch (g.remove_node X) X = true := by
  rw [no_touch_iff]
  refine ⟨fun p hp => ?_, fun e he => ?_⟩
  · have := (List.mem_filter.mp hp).2
    rwa [decide_eq_true_iff] at this
  · have := (List.mem_filter.mp he).2
    rw [Bool.and_eq_true, decide_eq_true_iff, decide_eq_true_iff] at this
    exact this

theorem wf_no_node_no_touch {g : PyGraph} {X : NodeId}
    (hwf : edges_well_formed g = true) (hno : g.hasNode X = false) :
    no_touch g X = true := by
  rw [no_touch_iff]
  rw [wf_iff] at hwf
  refine ⟨fun p hp => ?_, fun e he => ?_⟩
  · intro hcon
    have : g.hasNode X = true :=
      (hasNode_iff g X).mpr (hcon ▸ List.mem_map_of_mem Prod.fst hp)
    rw [this] at hno
    cases hno
  · obtain ⟨he1, he2⟩ := hwf e he
    constructor
    · intro hcon
      rw [hcon] at he1
      rw [he1] at hno
      cases hno
    · intro hcon
      rw [hcon] at he2
      rw [he2] at hno
      cases hno

theorem wf_ensure {g : PyGraph} (u v : NodeId)
    (h : edges_well_formed g = true) : edges_well_formed (ensure_edge g u v).1 = true := by
  unfold ensure_edge
  by_cases hc : (!(g.hasEdge u v) && !(g.hasEdge v u)) = true
  · rw [if_pos hc]
    exact wf_add_edge g u v h
  · rw [if_neg hc]
    exact h

theorem dget_mem : ∀ {m : List (NodeId × NodeId)} {k v : NodeId},
    dget m k = some v → (k, v) ∈ m := by
  intro m
  induction m with
  | nil => intro k v h; simp [dget] at h
  | cons p rest ih =>
    intro k v h
    obtain ⟨k0, v0⟩ := p
    rw [dget] at h
    by_cases hk : k0 = k
    · rw [if_pos hk] at h
      rw [Option.some.injEq] at h
      rw [← h, hk]
      exact List.mem_cons_self _ _
    · rw [if_neg hk] at h
      exact List.mem_cons_of_mem _ (ih h)

theorem dgetL_setdefault_self : ∀ (m : List (NodeId × List NodeId)) (k v : NodeId),
    v ∈ dgetL (setdefault_append m k v) k := by
  intro m
  induction m with
  | nil =>
    intro k v
    show v ∈ (if k = k then [v] else [])
    rw [if_pos rfl]
    exact List.mem_singleton.mpr rfl
  | cons p rest ih =>
    intro k v
    obtain ⟨k0, l0⟩ := p
    rw [setdefault_append]
    by_cases hk : k0 = k
    · rw [if_pos hk]
      show v ∈ (if k0 = k then l0 ++ [v] else dgetL rest k)
      rw [if_pos hk]
      exact List.mem_append.mpr (Or.inr (List.mem_singleton.mpr rfl))
    · rw [if_neg hk]
      show v ∈ (if k0 = k then l0 else dgetL (setdefault_append rest k v) k)
      rw [if_neg hk]
      exact ih k v

theorem dgetL_setdefault_mono : ∀ (m : List (NodeId × List NodeId)) (k v l2 r : NodeId),
    r ∈ dgetL m l2 → r ∈ dgetL (setdefault_append m k v) l2 := by
  intro m
  induction m with
  | nil =>
    intro k v l2 r h
    simp [dgetL] at h
  | cons p rest ih =>
    intro k v l2 r h
    obtain ⟨k0, l0⟩ := p
    rw [dgetL] at h
    rw [setdefault_append]
    by_cases hk : k0 = k
    · rw [if_pos hk]
      show r ∈ (if k0 = l2 then l0 ++ [v] else dgetL rest l2)
      by_cases hl : k0 = l2
      · rw [if_pos hl]
        rw [if_pos hl] at h
        exact List.mem_append.mpr (Or.inl h)
      · rw [if_neg hl]
        rw [if_neg hl] at h
        exact h
    · rw [if_neg hk]
      show r ∈ (if k0 = l2 then l0 else dgetL (setdefault_append rest k v) l2)
      by_cases hl : k0 = l2
      · rw [if_pos hl]
        rw [if_pos hl] at h
        exact h
      · rw [if_neg hl]
        rw [if_neg hl] at h
        exact ih k v l2 r h

theorem mem_dgetL_build_aux :
    ∀ (items : List (NodeId × NodeId)) (acc : List (NodeId × List NodeId)) (r l2 : NodeId),
    ((r, l2) ∈ items ∨ r ∈ dgetL acc l2) →
    r ∈ dgetL (items.foldl (fun acc2 p => setdefault_append acc2 p.2 p.1) acc) l2 := by
  intro items
  induction items with
  | nil =>
    intro acc r l2 h
    rcases h with h | h
    · simp at h
    · simpa using h
  | cons p items ih =>
    intro acc r l2 h
    rw [List.foldl_cons]
    rcases h with h | h
    · rcases List.mem_cons.mp h with heq | h2
      · refine ih _ r l2 (Or.inr ?_)
        rw [← heq]
        exact dgetL_setdefault_self acc l2 r
      · exact ih _ r l2 (Or.inl h2)
    · exact ih _ r l2 (Or.inr (dgetL_setdefault_mono acc p.2 p.1 l2 r h))

theorem mem_dgetL_build {rhs_to_lhs : List (NodeId × NodeId)} {r l2 : NodeId}
    (h : dget rhs_to_lhs r = some l2) : r ∈ dgetL (build_lhs_to_rhs rhs_to_lhs) l2 :=
  mem_dgetL_build_aux rhs_to_lhs [] r l2 (Or.inl (dget_mem h))

end SPO

namespace SPO

theorem memo_get_mem : ∀ {m : List (Option NodeId × Int)} {k : Option NodeId} {v : Int},
    memo_get m k = some v → (k, v) ∈ m := by
  intro m
  induction m with
  | nil => intro k v h; simp [memo_get] at h
  | cons p rest ih =>
    intro k v h
    obtain ⟨k0, v0⟩ := p
    rw [memo_get] at h
    by_cases hk : k0 = k
    · rw [if_pos hk] at h
      rw [Option.some.injEq] at h
      rw [← h, hk]
      exact List.mem_cons_self _ _
    · rw [if_neg hk] at h
      exact List.mem_cons_of_mem _ (ih h)

theorem del_create {start : Int} {X : NodeId}
    (HX : ∀ k : Int, start ≤ k → NodeId.i k ≠ X)
    {G_rhs : PyGraph} {a b c : Option NodeId} {st : RState} {nid : NodeId} {st' : RState}
    (h : create_rhs_only_node G_rhs a b c st = .ok (nid, st'))
    (hI : DelInv start X st) : DelInv start X st' ∧ nid ≠ X := by
  obtain ⟨hA, hW, hN⟩ := hI
  have hA' : AllocInv start st' := alloc_create h hA
  rcases create_shape h with ⟨k, hk, hnid, rfl⟩ | ⟨hnid, hnext, hcr, hmemo, a2, hG⟩
  · refine ⟨⟨hA', hW, hN⟩, ?_⟩
    rw [hnid]
    have hmem := memo_get_mem hk
    have := (hA.2.2.2 _ hmem).1
    exact HX k this
  · have hfresh : NodeId.i st.next_new_id ≠ X := HX _ hA.1
    refine ⟨⟨hA', ?_, ?_⟩, by rw [hnid]; exact hfresh⟩
    · rw [hG]
      exact wf_addNode _ _ _ hW
    · rw [hG]
      exact no_touch_addNode _ hfresh hN

theorem del_process_neighbor {start : Int} {X : NodeId}
    {G_rhs : PyGraph} {rhs_to_lhs lhs_to_input : List (NodeId × NodeId)}
    (HX : ∀ k : Int, start ≤ k → NodeId.i k ≠ X)
    (Hsh : ∀ r l2, dget rhs_to_lhs r = some l2 → dget lhs_to_input l2 ≠ some X)
    {visited : List NodeId} {rhs_cur input_cur : NodeId}
    {acc : List (NodeId × NodeId) × RState} {rhs_nbr : NodeId}
    {out : List (NodeId × NodeId) × RState}
    (h : process_neighbor G_rhs rhs_to_lhs lhs_to_input visited rhs_cur input_cur acc rhs_nbr
      = .ok out)
    (hcur : input_cur ≠ X)
    (hI : DelInv start X acc.2) (hq : ∀ q ∈ acc.1, q.2 ≠ X) :
    DelInv start X out.2 ∧ ∀ q ∈ out.1, q.2 ≠ X := by
  unfold process_neighbor at h
  cases hg : dget rhs_to_lhs rhs_nbr with
  | none =>
    simp only [hg] at h
    obtain ⟨res, hres, h⟩ := except_bind_ok h
    rw [← Prod.mk.eta (p := res)] at hres
    obtain ⟨⟨hA1, hW1, hN1⟩, hnid⟩ := del_create HX hres hI
    rw [Except.ok.injEq] at h
    rw [← h]
    refine ⟨⟨hA1, wf_ensure _ _ hW1, no_touch_ensure hcur hnid hN1⟩, ?_⟩
    intro q hq2
    by_cases hv : rhs_nbr ∈ visited
    · rw [if_pos hv] at hq2
      exact hq q hq2
    · rw [if_neg hv] at hq2
      rcases List.mem_append.mp hq2 with hq3 | hq3
      · exact hq q hq3
      · rw [List.mem_singleton] at hq3
        rw [hq3]
        exact hnid
  | some lhs_nbr =>
    simp only [hg] at h
    cases hi : dget lhs_to_input lhs_nbr with
    | none =>
      simp only [hi, Except.ok.injEq] at h
      rw [← h]
      exact ⟨hI, hq⟩
    | some input_nbr =>
      simp only [hi, Except.ok.injEq] at h
      have hnb : input_nbr ≠ X := by
        intro hcon
        exact Hsh rhs_nbr lhs_nbr hg (by rw [hi, hcon])
      obtain ⟨hA, hW, hN⟩ := hI
      rw [← h]
      refine ⟨⟨hA, wf_ensure _ _ hW, no_touch_ensure hcur hnb hN⟩, ?_⟩
      intro q hq2
      by_cases hv : rhs_nbr ∈ visited
      · rw [if_pos hv] at hq2
        exact hq q hq2
      · rw [if_neg hv] at hq2
        rcases List.mem_append.mp hq2 with hq3 | hq3
        · exact hq q hq3
        · rw [List.mem_singleton] at hq3
          rw [hq3]
          exact hnb

theorem del_bfs {start : Int} {X : NodeId}
    {G_rhs : PyGraph} {rhs_to_lhs lhs_to_input : List (NodeId × NodeId)}
    (HX : ∀ k : Int, start ≤ k → NodeId.i k ≠ X)
    (Hsh : ∀ r l2, dget rhs_to_lhs r = some l2 → dget lhs_to_input l2 ≠ some X) :
    ∀ (fuel : Nat) (queue : List (NodeId × NodeId)) (visited : List NodeId)
      (st : RState) (out : List NodeId × RState),
    bfs_loop G_rhs rhs_to_lhs lhs_to_input fuel queue visited st = .ok out →
    (∀ q ∈ queue, q.2 ≠ X) → DelInv start X st → DelInv start X out.2 := by
  intro fuel
  induction fuel with
  | zero =>
    intro queue visited st out h
    exact absurd h (by simp [bfs_loop])
  | succ fuel ih =>
    intro queue visited st out h hqa hI
    cases queue with
    | nil =>
      rw [bfs_loop] at h
      cases h
      exact hI
    | cons q rest =>
      obtain ⟨rhs_cur, input_cur⟩ := q
      rw [bfs_loop] at h
      by_cases hv : rhs_cur ∈ visited
      · rw [if_pos hv] at h
        exact ih _ _ _ _ h (fun q2 hq2 => hqa q2 (List.mem_cons_of_mem _ hq2)) hI
      · rw [if_neg hv] at h
        obtain ⟨o1, ho1, h⟩ := except_bind_ok h
        have hcur : input_cur ≠ X := hqa (rhs_cur, input_cur) (List.mem_cons_self _ _)
        have hfold : DelInv start X o1.2 ∧ ∀ q2 ∈ o1.1, q2.2 ≠ X := by
          refine foldlME_inv (fun acc => DelInv start X acc.2 ∧ ∀ q2 ∈ acc.1, q2.2 ≠ X)
            _ ?_ _ _ _ ⟨hI, by intro q2 hq2; simp at hq2⟩ ho1
          intro b a b' hb hf
          exact del_process_neighbor HX Hsh hf hcur hb.1 hb.2
        refine ih _ _ _ _ h ?_ hfold.1
        intro q2 hq2
        rcases List.mem_append.mp hq2 with hq3 | hq3
        · exact hqa q2 (List.mem_cons_of_mem _ hq3)
        · exact hfold.2 q2 hq3

theorem del_orphan {start : Int} {X : NodeId}
    (HX : ∀ k : Int, start ≤ k → NodeId.i k ≠ X)
    {G_rhs : PyGraph} {lhs_to_rhs : List (NodeId × List NodeId)}
    {visited : List NodeId} {st st' : RState}
    (h : orphan_scan G_rhs lhs_to_rhs visited st = .ok st')
    (hI : DelInv start X st) : DelInv start X st' := by
  refine foldlME_inv (DelInv start X) _ ?_ _ _ _ hI h
  intro b a b' hb hf
  by_cases hc : (!(decide (a ∈ visited)) && !(dhasKeyL lhs_to_rhs a)) = true
  · rw [if_pos hc] at hf
    obtain ⟨res, hres, hf⟩ := except_bind_ok hf
    rw [← Prod.mk.eta (p := res)] at hres
    rw [Except.ok.injEq] at hf
    rw [← hf]
    exact (del_create HX hres hb).1
  · rw [if_neg hc] at hf
    rw [Except.ok.injEq] at hf
    rw [← hf]
    exact hb

theorem del_process_rhs_start {start : Int} {X : NodeId}
    {G_rhs : PyGraph} {rhs_to_lhs lhs_to_input : List (NodeId × NodeId)}
    {lhs_to_rhs : List (NodeId × List NodeId)}
    (HX : ∀ k : Int, start ≤ k → NodeId.i k ≠ X)
    (Hsh : ∀ r l2, dget rhs_to_lhs r = some l2 → dget lhs_to_input l2 ≠ some X)
    {input_id : NodeId} {st : RState} {rhs_start : NodeId} {st' : RState}
    (h : process_rhs_start G_rhs rhs_to_lhs lhs_to_input lhs_to_rhs input_id st rhs_start
      = .ok st')
    (hid : input_id ≠ X)
    (hI : DelInv start X st) : DelInv start X st' := by
  unfold process_rhs_start at h
  by_cases hn : (!(G_rhs.hasNode rhs_start)) = true
  · rw [if_pos hn] at h
    rw [Except.ok.injEq] at h
    rw [← h]
    exact hI
  · rw [if_neg hn] at h
    obtain ⟨o1, ho1, h⟩ := except_bind_ok h
    refine del_orphan HX h (del_bfs HX Hsh _ _ _ _ _ ho1 ?_ hI)
    intro q hq
    rw [List.mem_singleton] at hq
    rw [hq]
    exact hid

theorem del_process_lhs_node {start : Int} {X : NodeId}
    {G_rhs : PyGraph} {rhs_to_lhs lhs_to_input : List (NodeId × NodeId)}
    {lhs_to_rhs : List (NodeId × List NodeId)}
    (HX : ∀ k : Int, start ≤ k → NodeId.i k ≠ X)
    (Hsh : ∀ r l2, dget rhs_to_lhs r = some l2 → dget lhs_to_input l2 ≠ some X)
    (Hpres : ∀ l2 input, dget lhs_to_input l2 = some input →
      dgetL lhs_to_rhs l2 ≠ [] → input ≠ X)
    {st : RState} {lhs_id : NodeId} {st' : RState}
    (h : process_lhs_node G_rhs rhs_to_lhs lhs_to_input lhs_to_rhs st lhs_id = .ok st')
    (hI : DelInv start X st) : DelInv start X st' := by
  unfold process_lhs_node at h
  cases hi : dget lhs_to_input lhs_id with
  | none =>
    simp only [hi, Except.ok.injEq] at h
    rw [← h]
    exact hI
  | some input_id =>
    simp only [hi] at h
    cases hl : dgetL lhs_to_rhs lhs_id with
    | nil =>
      simp only [hl] at h
      obtain ⟨hA, hW, hN⟩ := hI
      by_cases hn : (st.G_in.hasNode input_id) = true
      · rw [if_pos hn] at h
        rw [Except.ok.injEq] at h
        rw [← h]
        exact ⟨hA, wf_remove_node _ _ hW, no_touch_remove_node hN⟩
      · rw [if_neg hn] at h
        rw [Except.ok.injEq] at h
        rw [← h]
        exact ⟨hA, hW, hN⟩
    | cons r rs =>
      simp only [hl] at h
      have hid : input_id ≠ X := Hpres lhs_id input_id hi (by rw [hl]; exact List.cons_ne_nil r rs)
      refine foldlME_inv (DelInv start X) _ ?_ _ _ _ hI h
      intro b a b' hb hf
      exact del_process_rhs_start HX Hsh hf hid hb

theorem wf_main_fold {G_rhs : PyGraph} {rhs_to_lhs lhs_to_input : List (NodeId × NodeId)}
    {lhs_to_rhs : List (NodeId × List NodeId)}
    {ids : List NodeId} {st0 st1 : RState}
    (h : ids.foldlM (process_lhs_node G_rhs rhs_to_lhs lhs_to_input lhs_to_rhs) st0 = .ok st1)
    (hW : edges_well_formed st0.G_in = true) : edges_well_formed st1.G_in = true := by
  refine foldlME_inv (fun s => edges_well_formed s.G_in = true) _ ?_ _ _ _ hW h
  intro b a b' hb hf
  refine process_lhs_node_graphQ (fun gg => edges_well_formed gg = true) ?_ ?_ ?_ hf hb
  · intro g v a2 hg
    exact wf_addNode _ _ _ hg
  · intro g u2 v2 hg
    exact wf_ensure _ _ hg
  · intro g v2 hg
    exact wf_remove_node _ _ hg

theorem nodes_remove_edge (g : PyGraph) (u v : NodeId) :
    (g.remove_edge u v).nodes = g.nodes := rfl

theorem nodes_edge_pass_step (G_rhs : PyGraph)
    (lhs_to_input : List (NodeId × NodeId)) (lhs_to_rhs : List (NodeId × List NodeId))
    (g : PyGraph) (e : NodeId × NodeId) :
    (edge_pass_step G_rhs lhs_to_input lhs_to_rhs g e).nodes = g.nodes := by
  unfold edge_pass_step
  split
  · by_cases h0 : ((dgetL lhs_to_rhs e.1).any fun ru => (dgetL lhs_to_rhs e.2).any
        fun rv => G_rhs.hasEdge ru rv) = true
    · simp only [h0, if_true]
    · rw [Bool.not_eq_true] at h0
      simp only [h0, Bool.false_eq_true, if_false]
      split_ifs with ha hb
      · rfl
      · rfl
      · rfl
  · rfl

end SPO

namespace SPO

/-- C3 amended: the deletion claim holds under two extra conditions
the counterexample shows to be necessary: (a) every pre-existing
input node id parses as an integer (otherwise the fresh-id counter
can re-issue the deleted id), and (b) no LHS node with a non-empty
set of RHS correspondents shares the deleted match image (otherwise
frontier expansion re-creates the node via add_edge).  Then for an
LHS node l with an empty RHS correspondence whose match X is an input
node, X is absent from the final graph: it is not a node, no edge
touches it, and the serialized output mentions it nowhere. -/
theorem C3_deletion_amended (req : CalculateRequest) (st : RState) (l X : NodeId)
    (hall : ((req.graph_input.to_networkx).nodes.map Prod.fst).all
      (fun n => (int_of_node_id n).isSome) = true)
    (hl : l ∈ (req.graph_lhs.to_networkx).nodes.map Prod.fst)
    (hmatch : dget (norm_ids req.mapping_lhs_to_input) l = some X)
    (hXin : (req.graph_input.to_networkx).hasNode X = true)
    (hdel : dgetL (build_lhs_to_rhs (norm_ids req.mapping_rhs_to_lhs)) l = [])
    (hnoshare : ∀ l2, dgetL (build_lhs_to_rhs (norm_ids req.mapping_rhs_to_lhs)) l2 ≠ [] →
      dget (norm_ids req.mapping_lhs_to_input) l2 ≠ some X)
    (hok : calculateT req = .ok st) :
    no_touch st.G_in X = true ∧
    (node_link_data st.G_in req.graph_input.graph).nodes.all
      (fun n => decide (n.id ≠ X)) = true ∧
    (node_link_data st.G_in req.graph_input.graph).links.all
      (fun lk => decide (lk.source ≠ X) && decide (lk.target ≠ X)) = true := by
  obtain ⟨st1, hmain, hst⟩ := calculateT_ok_inv hok
  have HX : ∀ k : Int, max_input_id (req.graph_input.to_networkx) + 1 ≤ k →
      NodeId.i k ≠ X := by
    intro k hk hcon
    have hmem : X ∈ (req.graph_input.to_networkx).nodes.map Prod.fst :=
      (hasNode_iff _ _).mp hXin
    have hS := List.all_eq_true.mp hall X hmem
    obtain ⟨v, hv⟩ := Option.isSome_iff_exists.mp hS
    have hle := max_input_id_ge _ hall hmem hv
    rw [← hcon] at hv
    have h2 : int_of_node_id (NodeId.i k) = some k := rfl
    rw [h2] at hv
    have hkv := Option.some.inj hv
    omega
  have Hsh : ∀ r l2, dget (norm_ids req.mapping_rhs_to_lhs) r = some l2 →
      dget (norm_ids req.mapping_lhs_to_input) l2 ≠ some X := by
    intro r l2 hr
    exact hnoshare l2 (List.ne_nil_of_mem (mem_dgetL_build hr))
  have Hpres : ∀ l2 input, dget (norm_ids req.mapping_lhs_to_input) l2 = some input →
      dgetL (build_lhs_to_rhs (norm_ids req.mapping_rhs_to_lhs)) l2 ≠ [] → input ≠ X := by
    intro l2 input hdg hne hcon
    exact hnoshare l2 hne (by rw [hdg, hcon])
  obtain ⟨s, t, hids⟩ := List.append_of_mem hl
  rw [hids, List.foldlM_append] at hmain
  obtain ⟨stA, hsA, hrest⟩ := except_bind_ok hmain
  rw [List.foldlM_cons] at hrest
  obtain ⟨stB, hstep, ht⟩ := except_bind_ok hrest
  have hA0 : AllocInv (max_input_id (req.graph_input.to_networkx) + 1)
      ⟨req.graph_input.to_networkx, max_input_id (req.graph_input.to_networkx) + 1, [], []⟩ := by
    refine ⟨le_refl _, ?_, List.chain'_nil, ?_⟩
    · intro c hc
      simp at hc
    · intro p hp
      simp at hp
  have hAA : AllocInv (max_input_id (req.graph_input.to_networkx) + 1) stA := by
    refine foldlME_inv (AllocInv (max_input_id (req.graph_input.to_networkx) + 1))
      _ ?_ _ _ _ hA0 hsA
    intro b a b' hb hf
    refine process_lhs_node_stateQ _ (fun st2 g hP => hP) ?_ hf hb
    intro G2 a2 b2 c2 st2 nid st2' hcr hP
    exact alloc_create hcr hP
  have hWA : edges_well_formed stA.G_in = true := wf_main_fold hsA (wf_to_networkx _)
  have hB : DelInv (max_input_id (req.graph_input.to_networkx) + 1) X stB := by
    unfold process_lhs_node at hstep
    simp only [hmatch, hdel] at hstep
    by_cases hn : (stA.G_in.hasNode X) = true
    · rw [if_pos hn] at hstep
      rw [Except.ok.injEq] at hstep
      rw [← hstep]
      exact ⟨hAA, wf_remove_node _ _ hWA, no_touch_remove_node_self _ _⟩
    · rw [if_neg hn] at hstep
      rw [Except.ok.injEq] at hstep
      rw [← hstep]
      rw [Bool.not_eq_true] at hn
      exact ⟨hAA, hWA, wf_no_node_no_touch hWA hn⟩
  have h1 : DelInv (max_input_id (req.graph_input.to_networkx) + 1) X st1 := by
    refine foldlME_inv (DelInv (max_input_id (req.graph_input.to_networkx) + 1) X)
      _ ?_ _ _ _ hB ht
    intro b a b' hb hf
    exact del_process_lhs_node HX Hsh Hpres hf hb
  have hfin : no_touch st.G_in X = true := by
    rw [hst]
    refine foldl_inv (fun gg => no_touch gg X = true) _ ?_ _ _ h1.2.2
    intro b a hb
    exact no_touch_eq_sub (nodes_edge_pass_step _ _ _ _ _)
      (edge_pass_step_edges_sublist _ _ _ _ _) hb
  refine ⟨hfin, ?_, ?_⟩
  · rw [List.all_eq_true]
    intro n hn
    obtain ⟨p, hp, rfl⟩ := List.mem_map.mp hn
    rw [decide_eq_true_iff]
    exact ((no_touch_iff _ _).mp hfin).1 p hp
  · rw [List.all_eq_true]
    intro lk hlk
    have hlk2 : lk ∈ (node_link_edges st.G_in).map (fun e => Link.mk e.1 e.2) := hlk
    obtain ⟨pr, hpr, rfl⟩ := List.mem_map.mp hlk2
    obtain ⟨e, he, hm⟩ := mem_node_link_edges st.G_in pr hpr
    have hE := ((no_touch_iff _ _).mp hfin).2 e he
    rw [Bool.and_eq_true, decide_eq_true_iff, decide_eq_true_iff]
    unfold edgeMatches at hm
    simp only [Bool.or_eq_true, Bool.and_eq_true, decide_eq_true_iff] at hm
    rcases hm with ⟨h1e, h2e⟩ | ⟨h1e, h2e⟩
    · exact ⟨h1e ▸ hE.1, h2e ▸ hE.2⟩
    · exact ⟨h2e ▸ hE.2, h1e ▸ hE.1⟩

/-- C3 amended, witness: on reqA (spec scenario A, pure deletion of
the path middle) the deleted node 2 is absent from the final graph
and output. -/
theorem C3_deletion_witness :
    no_touch (⟨⟨[(.i 1, ⟨some (some 0), some (some 0)⟩),
      (.i 3, ⟨some (some 0), some (some 0)⟩)], []⟩, 4, [], []⟩ : RState).G_in (.i 2) = true ∧
    (node_link_data (⟨⟨[(.i 1, ⟨some (some 0), some (some 0)⟩),
      (.i 3, ⟨some (some 0), some (some 0)⟩)], []⟩, 4, [], []⟩ : RState).G_in
      reqA.graph_input.graph).nodes.all (fun n => decide (n.id ≠ .i 2)) = true ∧
    (node_link_data (⟨⟨[(.i 1, ⟨some (some 0), some (some 0)⟩),
      (.i 3, ⟨some (some 0), some (some 0)⟩)], []⟩, 4, [], []⟩ : RState).G_in
      reqA.graph_input.graph).links.all
      (fun lk => decide (lk.source ≠ .i 2) && decide (lk.target ≠ .i 2)) = true :=
  C3_deletion_amended reqA _ (.i 10) (.i 2) (by rfl) (by decide) (by rfl) (by rfl) (by rfl)
    (by intro l2 hne; exact absurd rfl hne) (by rfl)

end SPO
